import Mathlib

/-!
sqler: SQL statement builder and struct mapper.

A shallow embedding of `sqler.go`.

* Go strings are Lean `String`s; the standard-library functions the source
  calls (`sort.Strings`, `strings.Join`, `strings.Replace`, `strings.ToLower`,
  `fmt.Sprintf` with `%s` verbs) are given executable models below.
* `interface{}` values are the type `Value`.
* A Go `map[string]interface{}` is an association list with pairwise distinct
  keys (`ValuesMap.WF`); the order of the list is the order in which `range`
  happens to visit the map.
* `reflect` is modelled by a list of members (field descriptor, current value).
  A call that panics in Go returns `none`.
-/

set_option autoImplicit false

namespace sqler

/-! ## Strings -/

/-- Lexicographic comparison of two rune sequences, the order of Go's `<` on
strings (Go compares the UTF-8 bytes, which orders valid strings exactly as
their code points do). -/
def lessRunes : List Char → List Char → Bool
  | [], [] => false
  | [], _ :: _ => true
  | _ :: _, [] => false
  | a :: as, b :: bs =>
    if a < b then true else if b < a then false else lessRunes as bs

/-- Go's `a < b` on strings. -/
def stringLess (a b : String) : Bool := lessRunes a.data b.data

/-- Go's `a <= b` on strings. -/
def stringLE (a b : String) : Prop := stringLess b a = false

namespace sort

/-- Insert a string into an ascending list, before the first larger element. -/
def insertString (x : String) : List String → List String
  | [] => [x]
  | y :: ys => if stringLess x y then x :: y :: ys else y :: insertString x ys

/-- Model of `sort.Strings`: sorts in ascending order (here by insertion; strings
that compare equal are identical, so every correct sort returns this list). -/
def Strings (xs : List String) : List String := xs.foldr insertString []

end sort

namespace unicode

/-- The runes with a lower-case counterpart (simple case mapping of the Unicode Character
Database, version 14.0), as ranges in the manner of Go's `unicode.CaseRanges`, ascending
and disjoint: `(lo, hi, some l)` maps the runes `lo..hi` onto the runes from `l` on, and
`(lo, hi, none)` is an alternating sequence (Go's `UpperLower`) in which the rune at an
even offset from `lo` is upper case and the next rune is its lower case. -/
def CaseRanges : List (Nat × Nat × Option Nat) :=
  [(65, 90, some 97), (192, 214, some 224), (216, 222, some 248), (256, 303, none),
    (304, 304, some 105), (306, 311, none), (313, 328, none), (330, 375, none),
    (376, 376, some 255), (377, 382, none), (385, 385, some 595), (386, 389, none),
    (390, 390, some 596), (391, 391, some 392), (393, 394, some 598), (395, 395, some 396),
    (398, 398, some 477), (399, 399, some 601), (400, 400, some 603), (401, 401, some 402),
    (403, 403, some 608), (404, 404, some 611), (406, 406, some 617), (407, 407, some 616),
    (408, 408, some 409), (412, 412, some 623), (413, 413, some 626), (415, 415, some 629),
    (416, 421, none), (422, 422, some 640), (423, 423, some 424), (425, 425, some 643),
    (428, 428, some 429), (430, 430, some 648), (431, 431, some 432), (433, 434, some 650),
    (435, 438, none), (439, 439, some 658), (440, 440, some 441), (444, 444, some 445),
    (452, 452, some 454), (453, 453, some 454), (455, 455, some 457), (456, 456, some 457),
    (458, 458, some 460), (459, 476, none), (478, 495, none), (497, 497, some 499),
    (498, 501, none), (502, 502, some 405), (503, 503, some 447), (504, 543, none),
    (544, 544, some 414), (546, 563, none), (570, 570, some 11365), (571, 571, some 572),
    (573, 573, some 410), (574, 574, some 11366), (577, 577, some 578), (579, 579, some 384),
    (580, 580, some 649), (581, 581, some 652), (582, 591, none), (880, 883, none),
    (886, 886, some 887), (895, 895, some 1011), (902, 902, some 940), (904, 906, some 941),
    (908, 908, some 972), (910, 911, some 973), (913, 929, some 945), (931, 939, some 963),
    (975, 975, some 983), (984, 1007, none), (1012, 1012, some 952), (1015, 1015, some 1016),
    (1017, 1017, some 1010), (1018, 1018, some 1019), (1021, 1023, some 891),
    (1024, 1039, some 1104), (1040, 1071, some 1072), (1120, 1153, none), (1162, 1215, none),
    (1216, 1216, some 1231), (1217, 1230, none), (1232, 1327, none), (1329, 1366, some 1377),
    (4256, 4293, some 11520), (4295, 4295, some 11559), (4301, 4301, some 11565),
    (5024, 5103, some 43888), (5104, 5109, some 5112), (7312, 7354, some 4304),
    (7357, 7359, some 4349), (7680, 7829, none), (7838, 7838, some 223), (7840, 7935, none),
    (7944, 7951, some 7936), (7960, 7965, some 7952), (7976, 7983, some 7968),
    (7992, 7999, some 7984), (8008, 8013, some 8000), (8025, 8025, some 8017),
    (8027, 8027, some 8019), (8029, 8029, some 8021), (8031, 8031, some 8023),
    (8040, 8047, some 8032), (8072, 8079, some 8064), (8088, 8095, some 8080),
    (8104, 8111, some 8096), (8120, 8121, some 8112), (8122, 8123, some 8048),
    (8124, 8124, some 8115), (8136, 8139, some 8050), (8140, 8140, some 8131),
    (8152, 8153, some 8144), (8154, 8155, some 8054), (8168, 8169, some 8160),
    (8170, 8171, some 8058), (8172, 8172, some 8165), (8184, 8185, some 8056),
    (8186, 8187, some 8060), (8188, 8188, some 8179), (8486, 8486, some 969),
    (8490, 8490, some 107), (8491, 8491, some 229), (8498, 8498, some 8526),
    (8544, 8559, some 8560), (8579, 8579, some 8580), (9398, 9423, some 9424),
    (11264, 11311, some 11312), (11360, 11360, some 11361), (11362, 11362, some 619),
    (11363, 11363, some 7549), (11364, 11364, some 637), (11367, 11372, none),
    (11373, 11373, some 593), (11374, 11374, some 625), (11375, 11375, some 592),
    (11376, 11376, some 594), (11378, 11378, some 11379), (11381, 11381, some 11382),
    (11390, 11391, some 575), (11392, 11491, none), (11499, 11502, none),
    (11506, 11506, some 11507), (42560, 42605, none), (42624, 42651, none), (42786, 42799, none),
    (42802, 42863, none), (42873, 42876, none), (42877, 42877, some 7545), (42878, 42887, none),
    (42891, 42891, some 42892), (42893, 42893, some 613), (42896, 42899, none),
    (42902, 42921, none), (42922, 42922, some 614), (42923, 42923, some 604),
    (42924, 42924, some 609), (42925, 42925, some 620), (42926, 42926, some 618),
    (42928, 42928, some 670), (42929, 42929, some 647), (42930, 42930, some 669),
    (42931, 42931, some 43859), (42932, 42947, none), (42948, 42948, some 42900),
    (42949, 42949, some 642), (42950, 42950, some 7566), (42951, 42954, none),
    (42960, 42960, some 42961), (42966, 42969, none), (42997, 42997, some 42998),
    (65313, 65338, some 65345), (66560, 66599, some 66600), (66736, 66771, some 66776),
    (66928, 66938, some 66967), (66940, 66954, some 66979), (66956, 66962, some 66995),
    (66964, 66965, some 67003), (68736, 68786, some 68800), (71840, 71871, some 71872),
    (93760, 93791, some 93792), (125184, 125217, some 125218)]

/-- Model of `unicode.To(LowerCase, r)` over the given ranges: the mapping of the range
that holds `r`, or `r` itself (Go finds the range by binary search). -/
def To (r : Nat) : List (Nat × Nat × Option Nat) → Nat
  | [] => r
  | (lo, hi, lower) :: rest =>
    if lo ≤ r ∧ r ≤ hi then
      match lower with
      | some l => l + (r - lo)
      | none => lo + ((r - lo) / 2 * 2 + 1)
    else To r rest

/-- Model of `unicode.ToLower`: ASCII runes are handled directly, all others through
`CaseRanges`. -/
def ToLower (r : Char) : Char :=
  if r.toNat ≤ 127 then
    if 65 ≤ r.toNat ∧ r.toNat ≤ 90 then Char.ofNat (r.toNat + 32) else r
  else Char.ofNat (To r.toNat CaseRanges)

end unicode

namespace strings

/-- Model of `strings.Join(elems, sep)`. -/
def Join : List String → String → String
  | [], _ => ""
  | [a], _ => a
  | a :: b :: rest, sep => a ++ sep ++ Join (b :: rest) sep

/-- Scan for `strings.Replace` with a non-empty `old`: `skip` counts the runes of
a matched occurrence that are still to be dropped. -/
def replaceScan (old new : List Char) : Nat → List Char → List Char
  | _, [] => []
  | skip + 1, _ :: cs => replaceScan old new skip cs
  | 0, c :: cs =>
    if old.isPrefixOf (c :: cs) then new ++ replaceScan old new (old.length - 1) cs
    else c :: replaceScan old new 0 cs

/-- Model of `strings.Replace(s, old, new, -1)`: every non-overlapping occurrence
of `old`, found left to right, is replaced by `new`; with an empty `old` the
replacement is inserted before every rune and at the end. -/
def ReplaceAll (s old new : String) : String :=
  if old = new then s
  else if old.data = [] then ⟨new.data ++ s.data.flatMap (fun c => c :: new.data)⟩
  else ⟨replaceScan old.data new.data 0 s.data⟩

/-- Model of `strings.ToLower`: a string of ASCII runes takes the fast path, which adds
`'a' - 'A'` to the runes `'A'..'Z'` (and returns the string itself when it has none);
any other string is `strings.Map(unicode.ToLower, s)`. -/
def ToLower (s : String) : String :=
  if s.data.all (fun c => c.toNat < 128) then
    if s.data.any (fun c => 65 ≤ c.toNat ∧ c.toNat ≤ 90) then
      ⟨s.data.map (fun c => if 65 ≤ c.toNat ∧ c.toNat ≤ 90 then Char.ofNat (c.toNat + 32) else c)⟩
    else s
  else ⟨s.data.map unicode.ToLower⟩

end strings

/-- The lower-case counterpart of a rune in Unicode, the rune itself when it has none. -/
def lowerOf (c : Char) : Char := Char.ofNat (unicode.To c.toNat unicode.CaseRanges)

/-- A string lower-cased: every rune is replaced by its lower-case counterpart. -/
def lowerCased (s : String) : String := ⟨s.data.map lowerOf⟩

/-! ## Values and ValuesMap -/

/-- A Go value held in an `interface{}`. -/
inductive Value where
  | nil
  | int (n : Int)
  | str (s : String)
  | bool (b : Bool)
  deriving DecidableEq, Repr

/-- The source's `type ValuesMap map[string]interface{}`, as the list of its
entries in iteration order. -/
abbrev ValuesMap := List (String × Value)

namespace ValuesMap

/-- Keys in iteration order. -/
def keys (m : ValuesMap) : List String := m.map Prod.fst

/-- A Go map holds each key once. -/
def WF (m : ValuesMap) : Prop := m.keys.Nodup

instance (m : ValuesMap) : Decidable m.WF := by unfold WF; infer_instance

/-- Map index `m[k]`: the stored value, or the zero value `nil` when absent. -/
def get (m : ValuesMap) (k : String) : Value :=
  match m.find? (fun e => e.1 == k) with
  | some e => e.2
  | none => Value.nil

/-- Map assignment `m[k] = v`. -/
def set (m : ValuesMap) (k : String) (v : Value) : ValuesMap :=
  match m with
  | [] => [(k, v)]
  | e :: rest => if e.1 = k then (k, v) :: rest else e :: set rest k v

/-- Source: `func (m ValuesMap) fields() []string`. -/
def fields (m : ValuesMap) : List String :=
  sort.Strings (m.foldl (fun fields e => fields ++ [e.1]) [])

/-- Source: `func (m ValuesMap) format(pattern string, sep string) string`. -/
def format (m : ValuesMap) (pattern sep : String) : String :=
  strings.Join
    (m.fields.foldl (fun tokens f => tokens ++ [strings.ReplaceAll pattern "%field" f]) [])
    sep

/-- Source: `func (m ValuesMap) values() []interface{}`. -/
def values (m : ValuesMap) : List Value :=
  m.fields.foldl (fun values f => values ++ [m.get f]) []

end ValuesMap

/-! ## Query parts and statements -/

/-- Source: `type QueryPart struct`. -/
structure QueryPart where
  Query : String
  Values : List Value
  deriving DecidableEq, Repr

/-- Source: `func Part(query string, values ...interface{}) *QueryPart`. -/
def Part (query : String) (values : List Value) : QueryPart := ⟨query, values⟩

/-- Source: `func Equal(values ValuesMap) *QueryPart`. -/
def Equal (values : ValuesMap) : QueryPart :=
  { Query := values.format "%field = ?" " AND ", Values := values.values }

/-- Source: `type Insert struct`. -/
structure Insert where
  Table : String
  Values : ValuesMap

/-- Source: `func (ins Insert) Format() (string, []interface{})`. -/
def Insert.Format (ins : Insert) : String × List Value :=
  let query := "INSERT INTO " ++ ins.Table ++ " (" ++ ins.Values.format "%field" ", "
    ++ ") VALUES(" ++ ins.Values.format "?" ", " ++ ")"
  (query, ins.Values.values)

/-- Source: `type Replace struct`. -/
structure Replace where
  Table : String
  Values : ValuesMap

/-- Source: `func (rep Replace) Format() (string, []interface{})`. -/
def Replace.Format (rep : Replace) : String × List Value :=
  let query := "REPLACE INTO " ++ rep.Table ++ " (" ++ rep.Values.format "%field" ", "
    ++ ") VALUES(" ++ rep.Values.format "?" ", " ++ ")"
  (query, rep.Values.values)

/-- Source: `type Update struct`; a nil `Where` is `none`. -/
structure Update where
  Table : String
  Values : ValuesMap
  Where : Option QueryPart

/-- Source: `func (upd Update) Format() (string, []interface{})`. -/
def Update.Format (upd : Update) : String × List Value :=
  let query := "UPDATE " ++ upd.Table ++ " SET " ++ upd.Values.format "%field = ?" ", "
  let values := upd.Values.values
  match upd.Where with
  | some w => (query ++ (" WHERE " ++ w.Query), values ++ w.Values)
  | none => (query, values)

/-- Source: `type Select struct`; a nil `Where` is `none`. -/
structure Select where
  Table : String
  Fields : List String
  Where : Option QueryPart

/-- Source: `func (sel Select) Format() (string, []interface{})`. -/
def Select.Format (sel : Select) : String × List Value :=
  let fields := if sel.Fields.length ≠ 0 then strings.Join sel.Fields ", " else "*"
  let query := "SELECT " ++ fields ++ " FROM " ++ sel.Table
  let values : List Value := []
  match sel.Where with
  | some w => (query ++ (" WHERE " ++ w.Query), values ++ w.Values)
  | none => (query, values)

/-! ## Struct mapping through reflection -/

/-- The Go types a struct field may have in this model. -/
inductive GoType where
  | int
  | string
  | bool
  | iface
  deriving DecidableEq, Repr

/-- Whether `reflect.Value.Set` accepts `reflect.ValueOf(v)` for a field of type `t`:
the value's dynamic type must be assignable to `t`; `reflect.ValueOf(nil)` is the zero
`reflect.Value`, which `Set` rejects for every field type. -/
def assignable : Value → GoType → Bool
  | Value.nil, _ => false
  | Value.int _, GoType.int => true
  | Value.str _, GoType.string => true
  | Value.bool _, GoType.bool => true
  | _, GoType.iface => true
  | _, _ => false

/-- A `reflect.StructTag`, as its key/value pairs in the order written. -/
abbrev StructTag := List (String × String)

/-- Model of `reflect.StructTag.Lookup`: the value of the first pair with the key, and
whether one exists (the value may be empty). -/
def StructTag.Lookup (tag : StructTag) (key : String) : Option String :=
  match tag.find? (fun p => p.1 == key) with
  | some p => some p.2
  | none => none

/-- Model of `reflect.StructField`: `PkgPath` is empty exactly for exported fields. -/
structure StructField where
  Name : String
  PkgPath : String
  Typ : GoType
  Tag : StructTag
  deriving DecidableEq, Repr

/-- Model of `reflect.StructField.IsExported`. -/
def StructField.IsExported (f : StructField) : Bool := f.PkgPath == ""

/-- Source: `func dbFieldName(stuctField reflect.StructField) string`. -/
def dbFieldName (stuctField : StructField) : String :=
  match stuctField.Tag.Lookup "db" with
  | some tag => tag
  | none => strings.ToLower stuctField.Name

/-- One field of a struct value: its descriptor and its current content. -/
structure Member where
  field : StructField
  value : Value
  deriving DecidableEq, Repr

/-- A struct value, as its fields in declaration order. -/
abbrev Struct := List Member

/-- The address held by a `reflect.Value`: that of field `i` of the mapped struct, or some
location outside it. -/
inductive Addr where
  | field (i : Nat)
  | outside
  deriving DecidableEq, Repr

/-- What Go's `==` compares on the `reflect.Value`s the source compares (both have the
field's type): the address and the read-only flag. `Field(i)` sets the flag for an
unexported field; `ValueOf(ptr).Elem()` never does. -/
structure RValue where
  addr : Addr
  flagRO : Bool
  deriving DecidableEq, Repr

/-- Model of `reflect.Value.Interface` on a value with content `content`: it panics on a
value obtained through an unexported field. -/
def RValue.Interface (v : RValue) (content : Value) : Option Value :=
  if v.flagRO then none else some content

/-- `structVal.Field(i)` for the member at index `i`. -/
def Member.rvalue (mem : Member) (i : Nat) : RValue :=
  { addr := Addr.field i, flagRO := !mem.field.IsExported }

/-- A pointer passed as `memberPtrs` element: `&s.f_i` for the mapped struct `s`, or a
pointer to a variable outside `s` holding `v`. -/
inductive MemberPtr where
  | field (i : Nat)
  | other (v : Value)
  deriving DecidableEq, Repr

/-- `reflect.ValueOf(memberPtr).Elem()`. -/
def MemberPtr.elem : MemberPtr → RValue
  | MemberPtr.field i => { addr := Addr.field i, flagRO := false }
  | MemberPtr.other _ => { addr := Addr.outside, flagRO := false }

/-- The content the pointer addresses. -/
def MemberPtr.deref (s : Struct) : MemberPtr → Value
  | MemberPtr.field i =>
    match s[i]? with
    | some mem => mem.value
    | none => Value.nil
  | MemberPtr.other v => v

/-- Source: `type Mapper struct { Ptr interface{} }`; `Ptr` is given by the struct it
points to. -/
structure Mapper where
  Ptr : Struct
  deriving DecidableEq, Repr

/-- Source: `func Map(ptr interface{}) Mapper`. -/
def Map (ptr : Struct) : Mapper := { Ptr := ptr }

namespace Mapper

/-- The loop of `Values` taken without member pointers, from index `i` on. -/
def valuesAll : List Member → Nat → ValuesMap → Option ValuesMap
  | [], _, valuesMap => some valuesMap
  | mem :: rest, i, valuesMap =>
    match (mem.rvalue i).Interface mem.value with
    | none => none
    | some v => valuesAll rest (i + 1) (valuesMap.set (dbFieldName mem.field) v)

/-- The inner loop of `Values` and `Fields`: the descriptor of the first field, from
index `i` on, with `structVal.Field(i) == memberPtrVal`. -/
def matchField (memberPtrVal : RValue) : List Member → Nat → Option StructField
  | [], _ => none
  | mem :: rest, i =>
    if mem.rvalue i = memberPtrVal then some mem.field
    else matchField memberPtrVal rest (i + 1)

/-- The loop of `Values` over the member pointers. -/
def valuesOf (s : Struct) : List MemberPtr → ValuesMap → Option ValuesMap
  | [], valuesMap => some valuesMap
  | memberPtr :: rest, valuesMap =>
    match matchField memberPtr.elem s 0 with
    | some sf =>
      match memberPtr.elem.Interface (memberPtr.deref s) with
      | none => none
      | some v => valuesOf s rest (valuesMap.set (dbFieldName sf) v)
    | none => valuesOf s rest valuesMap

/-- Source: `func (m Mapper) Values(memberPtrs ...interface{}) ValuesMap`; `none` when
the call panics. -/
def Values (m : Mapper) (memberPtrs : List MemberPtr) : Option ValuesMap :=
  if memberPtrs.length = 0 then valuesAll m.Ptr 0 []
  else valuesOf m.Ptr memberPtrs []

/-- Source: `func (m Mapper) Fields(memberPtrs ...interface{}) []string`. -/
def Fields (m : Mapper) (memberPtrs : List MemberPtr) : List String :=
  if memberPtrs.length = 0 then
    m.Ptr.foldl (fun fields mem => fields ++ [dbFieldName mem.field]) []
  else
    memberPtrs.foldl (fun fields memberPtr =>
      match matchField memberPtr.elem m.Ptr 0 with
      | some sf => fields ++ [dbFieldName sf]
      | none => fields) []

/-- Source: `func (m Mapper) findField(...) (reflect.Value, bool)`: the index of the first
field, from index `i` on, whose column name is `name`. -/
def findField (name : String) : List Member → Nat → Option Nat
  | [], _ => none
  | mem :: rest, i =>
    if dbFieldName mem.field = name then some i else findField name rest (i + 1)

/-- Model of `memberVal.Set(reflect.ValueOf(v))` on field `i`: it panics when the field
is unexported or `v` is not assignable to the field's type. -/
def setField (s : Struct) (i : Nat) (v : Value) : Option Struct :=
  match s[i]? with
  | none => none
  | some mem =>
    if mem.field.IsExported && assignable v mem.field.Typ then
      some (s.set i { mem with value := v })
    else none

/-- The loop of `SetValues` over the entries of the map, in iteration order. -/
def setValuesLoop : List (String × Value) → Struct → Option Struct
  | [], s => some s
  | (f, v) :: rest, s =>
    match findField f s 0 with
    | some i =>
      match setField s i v with
      | none => none
      | some s1 => setValuesLoop rest s1
    | none => setValuesLoop rest s

/-- Source: `func (m Mapper) SetValues(values ValuesMap)`: the struct afterwards, or
`none` when the call panics. -/
def SetValues (m : Mapper) (values : ValuesMap) : Option Struct :=
  setValuesLoop values m.Ptr

end Mapper

/-- The struct type of the tests: `F1 int` and `F2 string` tagged `db:"f_2"`. -/
def TestStruct (f1 : Int) (f2 : String) : Struct :=
  [ { field := { Name := "F1", PkgPath := "", Typ := GoType.int, Tag := [] },
      value := Value.int f1 },
    { field := { Name := "F2", PkgPath := "", Typ := GoType.string, Tag := [("db", "f_2")] },
      value := Value.str f2 } ]

/-- A struct with an unexported field: `struct { F1 int; f2 string }`. -/
def hiddenStruct : Struct :=
  [ { field := { Name := "F1", PkgPath := "", Typ := GoType.int, Tag := [] },
      value := Value.int 1 },
    { field := { Name := "f2", PkgPath := "sqler", Typ := GoType.string, Tag := [] },
      value := Value.str "qwe" } ]

/-- The column name a member pointer stands for: that of the field of `s` it addresses,
provided the field is exported; nothing for any other pointer. -/
def pointedColumn (s : Struct) : MemberPtr → Option String
  | MemberPtr.field i =>
    match s[i]? with
    | some mem => if mem.field.IsExported then some (dbFieldName mem.field) else none
    | none => none
  | MemberPtr.other _ => none

/-- A field `F3 string` whose `db` tag is present and empty. -/
def fieldF3 : StructField :=
  { Name := "F3", PkgPath := "", Typ := GoType.string, Tag := [("json", "x"), ("db", "")] }

/-- A field `F1 int` without a `db` tag. -/
def fieldF1 : StructField :=
  { Name := "F1", PkgPath := "", Typ := GoType.int, Tag := [("json", "x")] }

/-- A field `F2 string` tagged `db:"f_2"`. -/
def fieldF2 : StructField :=
  { Name := "F2", PkgPath := "", Typ := GoType.string, Tag := [("db", "f_2")] }

/-- A field `Ärger string` without a `db` tag. -/
def fieldAerger : StructField :=
  { Name := "Ärger", PkgPath := "", Typ := GoType.string, Tag := [] }

/-- A map with a key that names a field of `TestStruct` and one that names none. -/
def sampleValues : ValuesMap := [("zz", Value.nil), ("f_2", Value.str "qwe")]

/-! ## Scanning a result row -/

/-- Number of occurrences of the rune `c` in `s`. -/
def countRune (c : Char) (s : String) : Nat := s.data.count c

/-- The zero value of a type, what `reflect.New` allocates. -/
def zeroValue : GoType → Value
  | GoType.int => Value.int 0
  | GoType.string => Value.str ""
  | GoType.bool => Value.bool false
  | GoType.iface => Value.nil

/-- What `ScanRow` uses of a `*sql.Rows`: the result of `rows.Columns()`, and
`rows.Scan(ptrs...)` as a function of the pointee types of the destination pointers,
returning an error or the values it stored through the pointers, in order. -/
structure Rows where
  Columns : Except String (List String)
  Scan : List GoType → Except String (List Value)

namespace Mapper

/-- The first loop of `ScanRow`: for every column that `findField` resolves, in column
order, the index of the field found (the source's `fields` slice). -/
def scanFields (s : Struct) : List String → List Nat
  | [] => []
  | col :: rest =>
    match findField col s 0 with
    | some field => field :: scanFields s rest
    | none => scanFields s rest

/-- The destination pointers handed to `rows.Scan` (the source's `ptrs` slice), each
given by the type `reflect.New(field.Type())` allocated. -/
def scanPtrs (s : Struct) (columns : List String) : List GoType :=
  (scanFields s columns).filterMap (fun field =>
    match s[field]? with
    | some mem => some mem.field.Typ
    | none => none)

/-- The last loop of `ScanRow`, from position `i` on: `field.Set(valsPtrs[i].Elem())`.
The value has the field's type by construction, so `Set` panics only on an unexported
field. -/
def assignScanned (vals : List Value) : List Nat → Nat → Struct → Option Struct
  | [], _, s => some s
  | field :: rest, i, s =>
    match s[field]? with
    | none => none
    | some mem =>
      let x := match vals[i]? with
        | some v => v
        | none => zeroValue mem.field.Typ
      if mem.field.IsExported then
        assignScanned vals rest (i + 1) (s.set field { mem with value := x })
      else none

/-- Source: `func (m Mapper) ScanRow(rows *sql.Rows) error`: the returned error (`none`
for nil) and the struct afterwards, or `none` when the call panics. -/
def ScanRow (m : Mapper) (rows : Rows) : Option (Option String × Struct) :=
  match rows.Columns with
  | Except.error err => some (some err, m.Ptr)
  | Except.ok columns =>
    let fields := scanFields m.Ptr columns
    let ptrs := scanPtrs m.Ptr columns
    match rows.Scan ptrs with
    | Except.error err => some (some err, m.Ptr)
    | Except.ok vals =>
      match assignScanned vals fields 0 m.Ptr with
      | none => none
      | some s => some (none, s)

end Mapper

/-- Source: `func ScanRow(rows *sql.Rows, ptr interface{}) error`. -/
def ScanRow (rows : Rows) (ptr : Struct) : Option (Option String × Struct) :=
  Mapper.ScanRow { Ptr := ptr } rows

/-- A struct type with two fields under the column name `n`:
`struct { A int; B int; C int }`, `A` and `C` tagged `db:"n"`. -/
def clashStruct (a b c : Int) : Struct :=
  [ { field := { Name := "A", PkgPath := "", Typ := GoType.int, Tag := [("db", "n")] },
      value := Value.int a },
    { field := { Name := "B", PkgPath := "", Typ := GoType.int, Tag := [] },
      value := Value.int b },
    { field := { Name := "C", PkgPath := "", Typ := GoType.int, Tag := [("db", "n")] },
      value := Value.int c } ]

/-- Two fields under the column name `n`, the second unexported:
`struct { A int; c int }`, both tagged `db:"n"`. -/
def clashHidden : Struct :=
  [ { field := { Name := "A", PkgPath := "", Typ := GoType.int, Tag := [("db", "n")] },
      value := Value.int 1 },
    { field := { Name := "c", PkgPath := "sqler", Typ := GoType.int, Tag := [("db", "n")] },
      value := Value.int 2 } ]

/-- A struct with an interface-typed field holding nil: `struct { X interface{} }`. -/
def nilStruct : Struct :=
  [ { field := { Name := "X", PkgPath := "", Typ := GoType.iface, Tag := [] },
      value := Value.nil } ]

/-- Rows with the columns `f_2`, `zz`, `f1` whose `Scan` stores `"qwe"` and `7`. -/
def sampleRows : Rows :=
  { Columns := Except.ok ["f_2", "zz", "f1"],
    Scan := fun _ => Except.ok [Value.str "qwe", Value.int 7] }

/-- Rows whose `Scan` fails. -/
def failingRows : Rows :=
  { Columns := Except.ok ["f_2", "f1"],
    Scan := fun _ => Except.error "sql: no rows" }

/-- Rows whose `Columns` fails. -/
def closedRows : Rows :=
  { Columns := Except.error "sql: Rows are closed",
    Scan := fun _ => Except.ok [] }

/-! ## Order and sorting lemmas -/

theorem lessRunes_irrefl : ∀ a : List Char, lessRunes a a = false
  | [] => rfl
  | c :: cs => by simp [lessRunes, lessRunes_irrefl cs]

theorem lessRunes_trans : ∀ a b c : List Char,
    lessRunes a b = true → lessRunes b c = true → lessRunes a c = true
  | [], [], _, h, _ => by simp [lessRunes] at h
  | [], _ :: _, [], _, h => by simp [lessRunes] at h
  | [], _ :: _, _ :: _, _, _ => rfl
  | _ :: _, [], _, h, _ => by simp [lessRunes] at h
  | _ :: _, _ :: _, [], _, h => by simp [lessRunes] at h
  | x :: xs, y :: ys, z :: zs, h1, h2 => by
    simp only [lessRunes] at h1 h2 ⊢
    rcases lt_trichotomy x y with hxy | hxy | hxy
    · rcases lt_trichotomy y z with hyz | hyz | hyz
      · simp [lt_trans hxy hyz]
      · subst hyz; simp [hxy]
      · simp [hyz, lt_asymm hyz] at h2
    · subst hxy
      rcases lt_trichotomy x z with hyz | hyz | hyz
      · simp [hyz]
      · subst hyz
        simp only [lt_irrefl, if_false] at h1 h2 ⊢
        exact lessRunes_trans xs ys zs h1 h2
      · simp [hyz, lt_asymm hyz] at h2
    · simp [hxy, lt_asymm hxy] at h1

theorem lessRunes_total : ∀ a b : List Char,
    lessRunes a b = false → lessRunes b a = false → a = b
  | [], [], _, _ => rfl
  | [], _ :: _, h, _ => by simp [lessRunes] at h
  | _ :: _, [], _, h => by simp [lessRunes] at h
  | x :: xs, y :: ys, h1, h2 => by
    simp only [lessRunes] at h1 h2
    rcases lt_trichotomy x y with hxy | hxy | hxy
    · simp [hxy] at h1
    · subst hxy
      simp only [lt_irrefl, if_false] at h1 h2
      rw [lessRunes_total xs ys h1 h2]
    · simp [hxy] at h2


theorem stringLess_irrefl (a : String) : stringLess a a = false :=
  lessRunes_irrefl a.data

theorem stringLess_trans {a b c : String} (h1 : stringLess a b = true)
    (h2 : stringLess b c = true) : stringLess a c = true :=
  lessRunes_trans _ _ _ h1 h2

theorem stringLess_total {a b : String} (h1 : stringLess a b = false)
    (h2 : stringLess b a = false) : a = b :=
  String.ext (lessRunes_total _ _ h1 h2)

theorem stringLess_asymm {a b : String} (h : stringLess a b = true) :
    stringLess b a = false := by
  cases hba : stringLess b a with
  | false => rfl
  | true => have := stringLess_trans h hba; simp [stringLess_irrefl] at this

theorem stringLE_trans {a b c : String} (h1 : stringLE a b) (h2 : stringLE b c) :
    stringLE a c := by
  unfold stringLE at *
  cases hca : stringLess c a with
  | false => rfl
  | true =>
    cases hab : stringLess a b with
    | false =>
      have := stringLess_total hab h1
      subst this
      simp [hca] at h2
    | true =>
      have := stringLess_trans hca hab
      simp [this] at h2

namespace sort

theorem insertString_perm (x : String) (l : List String) :
    (insertString x l).Perm (x :: l) := by
  induction l with
  | nil => exact List.Perm.refl _
  | cons y ys ih =>
    unfold insertString
    split
    · exact List.Perm.refl _
    · exact (List.Perm.cons y ih).trans (List.Perm.swap x y ys)

theorem Strings_perm (l : List String) : (Strings l).Perm l := by
  induction l with
  | nil => exact List.Perm.refl _
  | cons x xs ih =>
    exact (insertString_perm x (Strings xs)).trans (List.Perm.cons x ih)

theorem insertString_sorted (x : String) (l : List String)
    (h : l.Pairwise stringLE) : (insertString x l).Pairwise stringLE := by
  induction l with
  | nil => simp [insertString]
  | cons y ys ih =>
    have hy := List.pairwise_cons.mp h
    unfold insertString
    split
    · rename_i hxy
      refine List.pairwise_cons.mpr ⟨?_, h⟩
      intro z hz
      have hxy2 : stringLE x y := stringLess_asymm hxy
      rcases List.mem_cons.mp hz with rfl | hz
      · exact hxy2
      · exact stringLE_trans hxy2 (hy.1 z hz)
    · rename_i hxy
      refine List.pairwise_cons.mpr ⟨?_, ih hy.2⟩
      intro z hz
      rcases List.mem_cons.mp ((insertString_perm x ys).mem_iff.mp hz) with rfl | hz
      · simpa [stringLE] using hxy
      · exact hy.1 z hz

theorem Strings_sorted (l : List String) : (Strings l).Pairwise stringLE := by
  induction l with
  | nil => exact List.Pairwise.nil
  | cons x xs ih => exact insertString_sorted x _ ih

/-- On a duplicate-free input the sorted list is strictly ascending. -/
theorem Strings_strict (l : List String) (h : l.Nodup) :
    (Strings l).Pairwise (fun a b => stringLess a b = true) := by
  have hnd : (Strings l).Nodup := (Strings_perm l).nodup_iff.mpr h
  have hs := Strings_sorted l
  have := hs.and hnd
  refine this.imp ?_
  intro a b hab
  cases hlt : stringLess a b with
  | true => rfl
  | false => exact absurd (stringLess_total hlt hab.1) hab.2

end sort


theorem foldl_append_singleton {α β : Type} (f : α → β) (l : List α) (acc : List β) :
    l.foldl (fun acc e => acc ++ [f e]) acc = acc ++ l.map f := by
  induction l generalizing acc with
  | nil => simp
  | cons x xs ih => simp [ih]

namespace strings

theorem ReplaceAll_field (f : String) : ReplaceAll "%field" "%field" f = f := by
  unfold ReplaceAll
  split
  · rename_i h; exact h
  · rw [if_neg (by decide)]
    show String.mk (replaceScan ['%', 'f', 'i', 'e', 'l', 'd'] f.data 0
      ['%', 'f', 'i', 'e', 'l', 'd']) = f
    simp [replaceScan, List.isPrefixOf]

theorem ReplaceAll_mark (f : String) : ReplaceAll "?" "%field" f = "?" := by
  unfold ReplaceAll
  split
  · rfl
  · rw [if_neg (by decide)]
    show String.mk (replaceScan ['%', 'f', 'i', 'e', 'l', 'd'] f.data 0 ['?']) = "?"
    simp [replaceScan, List.isPrefixOf]

theorem ReplaceAll_assign (f : String) :
    ReplaceAll "%field = ?" "%field" f = f ++ " = ?" := by
  unfold ReplaceAll
  split
  · rename_i h; rw [← h]; rfl
  · rw [if_neg (by decide)]
    show String.mk (replaceScan ['%', 'f', 'i', 'e', 'l', 'd'] f.data 0
      ['%', 'f', 'i', 'e', 'l', 'd', ' ', '=', ' ', '?']) = f ++ " = ?"
    simp [replaceScan, List.isPrefixOf]
    rfl

end strings


namespace ValuesMap

theorem fields_eq (m : ValuesMap) : m.fields = sort.Strings m.keys := by
  unfold fields keys
  rw [foldl_append_singleton Prod.fst m []]
  rfl

theorem fields_perm (m : ValuesMap) : m.fields.Perm m.keys := by
  rw [fields_eq]; exact sort.Strings_perm _

theorem fields_length (m : ValuesMap) : m.fields.length = m.length := by
  rw [(fields_perm m).length_eq]; simp [keys]

theorem mem_fields (m : ValuesMap) (k : String) : k ∈ m.fields ↔ k ∈ m.keys :=
  (fields_perm m).mem_iff

theorem fields_strict (m : ValuesMap) (hm : m.WF) :
    m.fields.Pairwise (fun a b => stringLess a b = true) := by
  rw [fields_eq]; exact sort.Strings_strict _ hm

theorem format_eq (m : ValuesMap) (pattern sep : String) :
    m.format pattern sep
      = strings.Join (m.fields.map (fun f => strings.ReplaceAll pattern "%field" f)) sep := by
  unfold format
  rw [foldl_append_singleton (fun f => strings.ReplaceAll pattern "%field" f) m.fields []]
  rfl

theorem format_field (m : ValuesMap) (sep : String) :
    m.format "%field" sep = strings.Join m.fields sep := by
  rw [format_eq]
  congr 1
  simp [strings.ReplaceAll_field]

theorem format_mark (m : ValuesMap) (sep : String) :
    m.format "?" sep = strings.Join (List.replicate m.length "?") sep := by
  rw [format_eq]
  congr 1
  simp [strings.ReplaceAll_mark, fields_length]

theorem format_assign (m : ValuesMap) (sep : String) :
    m.format "%field = ?" sep = strings.Join (m.fields.map (fun k => k ++ " = ?")) sep := by
  rw [format_eq]
  congr 1
  simp [strings.ReplaceAll_assign]

theorem values_eq (m : ValuesMap) : m.values = m.fields.map m.get := by
  unfold values
  rw [foldl_append_singleton m.get m.fields []]
  rfl

end ValuesMap

/-- C1: `Insert.Format` returns `INSERT INTO t (K) VALUES(Q)` with `K` the keys of the
map in strictly ascending order joined by `", "` and `Q` one `?` per entry joined by
`", "`, and returns the values `m[k]` for the keys in that same order. -/
theorem Insert_Format_spec (t : String) (m : ValuesMap) (hm : m.WF) :
    ∃ ks : List String,
      ks.Pairwise (fun a b => stringLess a b = true) ∧ (∀ k, k ∈ ks ↔ k ∈ m.keys) ∧
      Insert.Format ⟨t, m⟩
        = ("INSERT INTO " ++ t ++ " (" ++ strings.Join ks ", " ++ ") VALUES("
            ++ strings.Join (List.replicate m.length "?") ", " ++ ")",
          ks.map (fun k => m.get k)) := by
  refine ⟨m.fields, m.fields_strict hm, m.mem_fields, ?_⟩
  simp only [Insert.Format, ValuesMap.format_field, ValuesMap.format_mark, ValuesMap.values_eq]

/-- Instance of `Insert_Format_spec` on concrete input. -/
theorem Insert_Format_spec_witness :
    ValuesMap.WF [("f2", Value.nil), ("f1", Value.int 1)] ∧
    ∃ ks : List String,
      ks.Pairwise (fun a b => stringLess a b = true) ∧
      (∀ k, k ∈ ks ↔ k ∈ ValuesMap.keys [("f2", Value.nil), ("f1", Value.int 1)]) ∧
      Insert.Format ⟨"table", [("f2", Value.nil), ("f1", Value.int 1)]⟩
        = ("INSERT INTO " ++ "table" ++ " (" ++ strings.Join ks ", " ++ ") VALUES("
            ++ strings.Join (List.replicate
                (List.length [("f2", Value.nil), ("f1", Value.int 1)]) "?") ", " ++ ")",
          ks.map (fun k => ValuesMap.get [("f2", Value.nil), ("f1", Value.int 1)] k)) :=
  ⟨by decide, Insert_Format_spec "table" [("f2", Value.nil), ("f1", Value.int 1)] (by decide)⟩

/-- C2: `Update.Format` returns `UPDATE t SET S` with `S` the tokens `k = ?` for the keys
in strictly ascending order joined by `", "`; with a nil `Where` that is the whole query and
the values are the `m[k]` in key order; with a `Where` part `w` the query is followed by
`" WHERE " + w.Query` and the values by `w.Values`. -/
theorem Update_Format_spec (t : String) (m : ValuesMap) (hm : m.WF) :
    ∃ ks : List String,
      ks.Pairwise (fun a b => stringLess a b = true) ∧ (∀ k, k ∈ ks ↔ k ∈ m.keys) ∧
      Update.Format ⟨t, m, none⟩
        = ("UPDATE " ++ t ++ " SET " ++ strings.Join (ks.map (fun k => k ++ " = ?")) ", ",
          ks.map (fun k => m.get k)) ∧
      ∀ w : QueryPart, Update.Format ⟨t, m, some w⟩
        = ("UPDATE " ++ t ++ " SET " ++ strings.Join (ks.map (fun k => k ++ " = ?")) ", "
            ++ (" WHERE " ++ w.Query),
          ks.map (fun k => m.get k) ++ w.Values) := by
  refine ⟨m.fields, m.fields_strict hm, m.mem_fields, ?_, ?_⟩
  · simp only [Update.Format, ValuesMap.format_assign, ValuesMap.values_eq]
  · intro w
    simp only [Update.Format, ValuesMap.format_assign, ValuesMap.values_eq]

/-- Instance of `Update_Format_spec` on concrete input. -/
theorem Update_Format_spec_witness :
    ValuesMap.WF [("f2", Value.nil), ("f1", Value.int 1)] ∧
    ∃ ks : List String,
      ks.Pairwise (fun a b => stringLess a b = true) ∧
      (∀ k, k ∈ ks ↔ k ∈ ValuesMap.keys [("f2", Value.nil), ("f1", Value.int 1)]) ∧
      Update.Format ⟨"t1", [("f2", Value.nil), ("f1", Value.int 1)], none⟩
        = ("UPDATE " ++ "t1" ++ " SET " ++ strings.Join (ks.map (fun k => k ++ " = ?")) ", ",
          ks.map (fun k => ValuesMap.get [("f2", Value.nil), ("f1", Value.int 1)] k)) ∧
      ∀ w : QueryPart, Update.Format ⟨"t1", [("f2", Value.nil), ("f1", Value.int 1)], some w⟩
        = ("UPDATE " ++ "t1" ++ " SET " ++ strings.Join (ks.map (fun k => k ++ " = ?")) ", "
            ++ (" WHERE " ++ w.Query),
          ks.map (fun k => ValuesMap.get [("f2", Value.nil), ("f1", Value.int 1)] k)
            ++ w.Values) :=
  ⟨by decide, Update_Format_spec "t1" [("f2", Value.nil), ("f1", Value.int 1)] (by decide)⟩

/-- C3: `Select.Format` returns `SELECT F FROM t` with `F` equal to `*` for an empty
field list and otherwise the fields joined by `", "` in the order given; with a nil `Where`
nothing is appended and no values are returned; with a `Where` part `w` the query is
followed by `" WHERE " + w.Query` and the values are `w.Values`. -/
theorem Select_Format_spec (t : String) (fs : List String) :
    Select.Format ⟨t, fs, none⟩
      = ("SELECT " ++ (if fs = [] then "*" else strings.Join fs ", ") ++ " FROM " ++ t, []) ∧
    ∀ w : QueryPart, Select.Format ⟨t, fs, some w⟩
      = ("SELECT " ++ (if fs = [] then "*" else strings.Join fs ", ") ++ " FROM " ++ t
          ++ (" WHERE " ++ w.Query), w.Values) := by
  cases fs with
  | nil => simp [Select.Format]
  | cons f rest => simp [Select.Format]

/-- C4: `Equal` returns the tokens `k = ?` for the keys in strictly ascending order joined
by `" AND "`, and one value per entry, the i-th being `m[k_i]`. -/
theorem Equal_spec (m : ValuesMap) (hm : m.WF) :
    ∃ ks : List String,
      ks.Pairwise (fun a b => stringLess a b = true) ∧ (∀ k, k ∈ ks ↔ k ∈ m.keys) ∧
      (Equal m).Query = strings.Join (ks.map (fun k => k ++ " = ?")) " AND " ∧
      (Equal m).Values.length = m.length ∧
      ∀ (i : Nat) (h : i < ks.length), (Equal m).Values[i]? = some (m.get (ks.get ⟨i, h⟩)) := by
  refine ⟨m.fields, m.fields_strict hm, m.mem_fields, ?_, ?_, ?_⟩
  · simp only [Equal, ValuesMap.format_assign]
  · simp [Equal, ValuesMap.values_eq, ValuesMap.fields_length]
  · intro i h
    simp [Equal, ValuesMap.values_eq, h]

/-- Instance of `Equal_spec` on concrete input. -/
theorem Equal_spec_witness :
    ValuesMap.WF [("f2", Value.str "qwe"), ("f1", Value.int 1)] ∧
    ∃ ks : List String,
      ks.Pairwise (fun a b => stringLess a b = true) ∧
      (∀ k, k ∈ ks ↔ k ∈ ValuesMap.keys [("f2", Value.str "qwe"), ("f1", Value.int 1)]) ∧
      (Equal [("f2", Value.str "qwe"), ("f1", Value.int 1)]).Query
        = strings.Join (ks.map (fun k => k ++ " = ?")) " AND " ∧
      (Equal [("f2", Value.str "qwe"), ("f1", Value.int 1)]).Values.length
        = List.length [("f2", Value.str "qwe"), ("f1", Value.int 1)] ∧
      ∀ (i : Nat) (h : i < ks.length),
        (Equal [("f2", Value.str "qwe"), ("f1", Value.int 1)]).Values[i]?
          = some (ValuesMap.get [("f2", Value.str "qwe"), ("f1", Value.int 1)]
              (ks.get ⟨i, h⟩)) :=
  ⟨by decide, Equal_spec [("f2", Value.str "qwe"), ("f1", Value.int 1)] (by decide)⟩

/-- C5: `Replace.Format` returns the value list of `Insert.Format`, and its query is the
`Insert` query with the leading word `INSERT` replaced by `REPLACE`, that is
`REPLACE INTO t (cols) VALUES(?, ...)`. -/
theorem Replace_Format_spec (t : String) (m : ValuesMap) :
    (Replace.Format ⟨t, m⟩).2 = (Insert.Format ⟨t, m⟩).2 ∧
    ∃ rest : String,
      (Insert.Format ⟨t, m⟩).1 = "INSERT" ++ rest ∧
      (Replace.Format ⟨t, m⟩).1 = "REPLACE" ++ rest ∧
      rest = " INTO " ++ t ++ " (" ++ strings.Join m.fields ", " ++ ") VALUES("
        ++ strings.Join (List.replicate m.length "?") ", " ++ ")" := by
  refine ⟨rfl, _, ?_, ?_, rfl⟩
  · simp only [Insert.Format, ValuesMap.format_field, ValuesMap.format_mark]
    have : "INSERT INTO " = "INSERT" ++ " INTO " := by decide
    rw [this]
    simp only [String.append_assoc]
  · simp only [Replace.Format, ValuesMap.format_field, ValuesMap.format_mark]
    have : "REPLACE INTO " = "REPLACE" ++ " INTO " := by decide
    rw [this]
    simp only [String.append_assoc]

/-- C6: `fields` is the keys of the map sorted: every key occurs exactly once, nothing
else occurs, and the list is strictly ascending. -/
theorem fields_spec (m : ValuesMap) (hm : m.WF) :
    (∀ k : String, m.fields.count k = if k ∈ m.keys then 1 else 0) ∧
    m.fields.Pairwise (fun a b => stringLess a b = true) := by
  refine ⟨?_, m.fields_strict hm⟩
  intro k
  rw [(m.fields_perm).count_eq k]
  split
  · rename_i h; exact List.count_eq_one_of_mem hm h
  · rename_i h; exact List.count_eq_zero_of_not_mem h

/-- Instance of `fields_spec` on concrete input. -/
theorem fields_spec_witness :
    ValuesMap.WF [("f2", Value.nil), ("f1", Value.int 1)] ∧
    (∀ k : String, (ValuesMap.fields [("f2", Value.nil), ("f1", Value.int 1)]).count k
      = if k ∈ ValuesMap.keys [("f2", Value.nil), ("f1", Value.int 1)] then 1 else 0) ∧
    (ValuesMap.fields [("f2", Value.nil), ("f1", Value.int 1)]).Pairwise
      (fun a b => stringLess a b = true) :=
  ⟨by decide, fields_spec [("f2", Value.nil), ("f1", Value.int 1)] (by decide)⟩


/-! ## Map assignment and `Mapper.Values` -/

namespace ValuesMap

theorem mem_keys_set (m : ValuesMap) (k : String) (v : Value) (x : String) :
    x ∈ (m.set k v).keys ↔ x = k ∨ x ∈ m.keys := by
  induction m with
  | nil => simp [set, keys]
  | cons e rest ih =>
    unfold set
    split
    · rename_i h
      simp only [keys, List.map_cons, List.mem_cons] at ih ⊢
      rw [h]; tauto
    · simp only [keys, List.map_cons, List.mem_cons] at ih ⊢
      rw [ih]; tauto

theorem set_WF (m : ValuesMap) (k : String) (v : Value) (hm : m.WF) : (m.set k v).WF := by
  induction m with
  | nil => simp [set, WF, keys]
  | cons e rest ih =>
    have hc : e.1 ∉ keys rest ∧ WF rest := by
      simpa [WF, keys] using hm
    unfold set
    split
    · rename_i h
      subst h
      simpa [WF, keys] using hm
    · rename_i h
      have h1 := ih hc.2
      have h2 : e.1 ∉ (set rest k v).keys := by
        rw [mem_keys_set]; intro hx
        rcases hx with hx | hx
        · exact h hx
        · exact hc.1 hx
      show ((e :: set rest k v).map Prod.fst).Nodup
      exact List.nodup_cons.mpr ⟨h2, h1⟩

theorem get_nil (x : String) : get [] x = Value.nil := rfl

theorem get_cons (e : String × Value) (rest : ValuesMap) (x : String) :
    get (e :: rest) x = if e.1 = x then e.2 else get rest x := by
  by_cases h : e.1 = x
  · simp [get, List.find?_cons, h]
  · have hb : (e.1 == x) = false := by simpa using h
    simp only [get, List.find?_cons, hb, h, if_false]

theorem get_set (m : ValuesMap) (k : String) (v : Value) (x : String) :
    (m.set k v).get x = if x = k then v else m.get x := by
  induction m with
  | nil =>
    simp only [set, get_cons, get_nil]
    by_cases hx : x = k
    · subst hx; simp
    · have : ¬ k = x := fun h => hx h.symm
      simp [hx, this]
  | cons e rest ih =>
    unfold set
    split
    · rename_i h
      simp only [get_cons]
      by_cases hx : x = k
      · subst hx; simp
      · have h2 : ¬ k = x := fun h => hx h.symm
        have h3 : ¬ e.1 = x := fun h' => hx (h'.symm.trans h)
        simp [h2, h3, hx]
    · rename_i h
      simp only [get_cons, ih]
      by_cases he : e.1 = x
      · have hx : ¬ x = k := fun h' => h (he.trans h')
        simp [he, hx]
      · simp [he]

theorem length_set_of_not_mem (m : ValuesMap) (k : String) (v : Value) (h : k ∉ m.keys) :
    (m.set k v).length = m.length + 1 := by
  induction m with
  | nil => simp [set]
  | cons e rest ih =>
    have h1 : ¬ e.1 = k := by
      intro he; apply h; simp [keys, he]
    have h2 : k ∉ keys rest := by
      intro hk; apply h; simp only [keys, List.map_cons, List.mem_cons]; right; exact hk
    simp [set, h1, ih h2]

end ValuesMap

namespace Mapper

theorem valuesAll_exported (s : List Member) (i : Nat) (acc : ValuesMap)
    (h : ∀ mem ∈ s, mem.field.IsExported = true) :
    valuesAll s i acc
      = some (s.foldl (fun vm mem => vm.set (dbFieldName mem.field) mem.value) acc) := by
  induction s generalizing i acc with
  | nil => rfl
  | cons mem rest ih =>
    have h1 : mem.field.IsExported = true := h mem (List.mem_cons_self _ _)
    have h2 : ∀ x ∈ rest, x.field.IsExported = true :=
      fun x hx => h x (List.mem_cons_of_mem _ hx)
    simp [valuesAll, Member.rvalue, RValue.Interface, h1, ih _ _ h2]

theorem mem_keys_fold (s : List Member) (acc : ValuesMap) (x : String) :
    x ∈ (s.foldl (fun vm mem => vm.set (dbFieldName mem.field) mem.value) acc).keys
      ↔ x ∈ acc.keys ∨ ∃ mem ∈ s, dbFieldName mem.field = x := by
  induction s generalizing acc with
  | nil => simp
  | cons mem rest ih =>
    simp only [List.foldl_cons, ih, ValuesMap.mem_keys_set, List.mem_cons, exists_eq_or_imp]
    constructor
    · rintro ((h | h) | h)
      · exact Or.inr (Or.inl h.symm)
      · exact Or.inl h
      · exact Or.inr (Or.inr h)
    · rintro (h | h | h)
      · exact Or.inl (Or.inr h)
      · exact Or.inl (Or.inl h.symm)
      · exact Or.inr h

theorem fold_WF (s : List Member) (acc : ValuesMap) (h : acc.WF) :
    (s.foldl (fun vm mem => vm.set (dbFieldName mem.field) mem.value) acc).WF := by
  induction s generalizing acc with
  | nil => exact h
  | cons mem rest ih => exact ih _ (ValuesMap.set_WF _ _ _ h)

theorem get_fold_of_not_mem (s : List Member) (acc : ValuesMap) (x : String)
    (h : ∀ mem ∈ s, dbFieldName mem.field ≠ x) :
    (s.foldl (fun vm mem => vm.set (dbFieldName mem.field) mem.value) acc).get x
      = acc.get x := by
  induction s generalizing acc with
  | nil => rfl
  | cons mem rest ih =>
    have h1 : dbFieldName mem.field ≠ x := h mem (List.mem_cons_self _ _)
    have h2 : ∀ y ∈ rest, dbFieldName y.field ≠ x :=
      fun y hy => h y (List.mem_cons_of_mem _ hy)
    rw [List.foldl_cons, ih _ h2, ValuesMap.get_set, if_neg (fun hx => h1 hx.symm)]

/-- The entry under a column name is the value of the last field with that name. -/
theorem get_fold_last (pre post : List Member) (mem : Member) (acc : ValuesMap)
    (h : ∀ y ∈ post, dbFieldName y.field ≠ dbFieldName mem.field) :
    ((pre ++ mem :: post).foldl
        (fun vm mem => vm.set (dbFieldName mem.field) mem.value) acc).get
      (dbFieldName mem.field) = mem.value := by
  rw [List.foldl_append, List.foldl_cons, get_fold_of_not_mem _ _ _ h, ValuesMap.get_set,
    if_pos rfl]

theorem length_fold (s : List Member) (acc : ValuesMap)
    (hnd : (s.map (fun mem => dbFieldName mem.field)).Nodup)
    (hacc : ∀ mem ∈ s, dbFieldName mem.field ∉ acc.keys) :
    (s.foldl (fun vm mem => vm.set (dbFieldName mem.field) mem.value) acc).length
      = acc.length + s.length := by
  induction s generalizing acc with
  | nil => rfl
  | cons mem rest ih =>
    have hc := List.nodup_cons.mp hnd
    have h1 : dbFieldName mem.field ∉ acc.keys := hacc mem (List.mem_cons_self _ _)
    rw [List.foldl_cons, ih _ hc.2, ValuesMap.length_set_of_not_mem _ _ _ h1]
    · simp; omega
    · intro y hy hk
      rcases (ValuesMap.mem_keys_set _ _ _ _).mp hk with hk | hk
      · exact hc.1 (List.mem_map.mpr ⟨y, hy, hk⟩)
      · exact hacc y (List.mem_cons_of_mem _ hy) hk

end Mapper

/-- C7 (as stated) fails: on a struct with an unexported field, `Values()` without member
pointers panics in `reflect.Value.Interface` and returns no map. -/
theorem Values_all_unexported_panics :
    ¬ ∃ vm : ValuesMap, (Map hiddenStruct).Values [] = some vm := by
  rintro ⟨vm, h⟩
  have hn : (Map hiddenStruct).Values [] = none := by decide
  rw [hn] at h
  cases h

/-- C7 (amended): for a struct whose fields are all exported, `Values()` without member
pointers returns a map whose keys are exactly the column names of the fields; when the
column names are pairwise distinct, each field's entry holds the field's current value
and the map has as many entries as the struct has fields. -/
theorem Values_all_spec (s : Struct) (hexp : ∀ mem ∈ s, mem.field.IsExported = true) :
    ∃ vm : ValuesMap, (Map s).Values [] = some vm ∧ vm.WF ∧
      (∀ k, k ∈ vm.keys ↔ ∃ mem ∈ s, dbFieldName mem.field = k) ∧
      ((s.map (fun mem => dbFieldName mem.field)).Nodup →
        (∀ mem ∈ s, vm.get (dbFieldName mem.field) = mem.value) ∧ vm.length = s.length) := by
  refine ⟨s.foldl (fun vm mem => vm.set (dbFieldName mem.field) mem.value) [],
    ?_, ?_, ?_, ?_⟩
  · exact Mapper.valuesAll_exported s 0 [] hexp
  · exact Mapper.fold_WF s [] List.nodup_nil
  · intro k
    rw [Mapper.mem_keys_fold]
    simp [ValuesMap.keys]
  · intro hnd
    constructor
    · intro mem hmem
      obtain ⟨pre, post, rfl⟩ := List.append_of_mem hmem
      apply Mapper.get_fold_last
      intro y hy heq
      rw [List.map_append, List.map_cons] at hnd
      have := (List.nodup_cons.mp (List.nodup_append.mp hnd).2.1).1
      exact this (List.mem_map.mpr ⟨y, hy, heq⟩)
    · rw [Mapper.length_fold s [] hnd (by simp [ValuesMap.keys])]
      simp

/-- Instance of `Values_all_spec` on concrete input. -/
theorem Values_all_spec_witness :
    (∀ mem ∈ TestStruct 1 "qwe", mem.field.IsExported = true) ∧
    ((TestStruct 1 "qwe").map (fun mem => dbFieldName mem.field)).Nodup ∧
    ∃ vm : ValuesMap, (Map (TestStruct 1 "qwe")).Values [] = some vm ∧ vm.WF ∧
      (∀ k, k ∈ vm.keys ↔ ∃ mem ∈ TestStruct 1 "qwe", dbFieldName mem.field = k) ∧
      (∀ mem ∈ TestStruct 1 "qwe", vm.get (dbFieldName mem.field) = mem.value) ∧
      vm.length = (TestStruct 1 "qwe").length :=
  ⟨by decide, by decide,
    match Values_all_spec (TestStruct 1 "qwe") (by decide) with
    | ⟨vm, h1, h2, h3, h4⟩ => ⟨vm, h1, h2, h3, h4 (by decide)⟩⟩


/-! ## Member pointers -/

namespace Mapper

theorem matchField_outside (s : List Member) (i : Nat) :
    matchField { addr := Addr.outside, flagRO := false } s i = none := by
  induction s generalizing i with
  | nil => rfl
  | cons mem rest ih => simp [matchField, Member.rvalue, ih]

theorem matchField_below (s : List Member) (i j : Nat) (h : j < i) :
    matchField { addr := Addr.field j, flagRO := false } s i = none := by
  induction s generalizing i with
  | nil => rfl
  | cons mem rest ih =>
    have hne : ¬ i = j := by omega
    simp [matchField, Member.rvalue, hne, ih (i + 1) (by omega)]

theorem matchField_at (s : List Member) (i d : Nat) :
    matchField { addr := Addr.field (i + d), flagRO := false } s i
      = match s[d]? with
        | some mem => if mem.field.IsExported then some mem.field else none
        | none => none := by
  induction s generalizing i d with
  | nil => rfl
  | cons mem rest ih =>
    cases d with
    | zero =>
      cases hexp : mem.field.IsExported with
      | true => simp [matchField, Member.rvalue, hexp]
      | false =>
        simp [matchField, Member.rvalue, hexp, matchField_below rest (i + 1) i (by omega)]
    | succ d =>
      have hne : ¬ i = i + (d + 1) := by omega
      have hidx : i + (d + 1) = (i + 1) + d := by omega
      simp only [matchField, Member.rvalue, RValue.mk.injEq, Addr.field.injEq, hne, false_and,
        if_false, List.getElem?_cons_succ]
      rw [hidx]
      exact ih (i + 1) d

theorem matchField_elem (s : Struct) (p : MemberPtr) :
    (matchField p.elem s 0).map dbFieldName = pointedColumn s p := by
  cases p with
  | other v => simp [MemberPtr.elem, matchField_outside, pointedColumn]
  | field i =>
    have := matchField_at s 0 i
    rw [Nat.zero_add] at this
    simp only [MemberPtr.elem, this, pointedColumn]
    cases s[i]? with
    | none => rfl
    | some mem => by_cases h : mem.field.IsExported = true <;> simp [h]

theorem fields_fold (s : Struct) (ptrs : List MemberPtr) (acc : List String) :
    ptrs.foldl (fun fields memberPtr =>
        match matchField memberPtr.elem s 0 with
        | some sf => fields ++ [dbFieldName sf]
        | none => fields) acc
      = acc ++ ptrs.filterMap (pointedColumn s) := by
  induction ptrs generalizing acc with
  | nil => simp
  | cons p rest ih =>
    rw [List.foldl_cons, ih, List.filterMap_cons, ← matchField_elem s p]
    cases matchField p.elem s 0 with
    | none => rfl
    | some sf => simp

theorem valuesOf_keys (s : Struct) (ptrs : List MemberPtr) (acc : ValuesMap) :
    ∃ vm : ValuesMap, valuesOf s ptrs acc = some vm ∧ (acc.WF → vm.WF) ∧
      ∀ k, k ∈ vm.keys ↔ k ∈ acc.keys ∨ k ∈ ptrs.filterMap (pointedColumn s) := by
  induction ptrs generalizing acc with
  | nil => exact ⟨acc, rfl, id, by simp⟩
  | cons p rest ih =>
    have hp := matchField_elem s p
    cases hm : matchField p.elem s 0 with
    | none =>
      rw [hm] at hp
      obtain ⟨vm, h1, h2, h3⟩ := ih acc
      refine ⟨vm, ?_, h2, ?_⟩
      · simp only [valuesOf, hm]; exact h1
      · intro k
        rw [h3, List.filterMap_cons, ← hp]
        rfl
    | some sf =>
      rw [hm] at hp
      have hI : p.elem.Interface (p.deref s) = some (p.deref s) := by
        cases p <;> rfl
      obtain ⟨vm, h1, h2, h3⟩ := ih (acc.set (dbFieldName sf) (p.deref s))
      refine ⟨vm, ?_, fun h => h2 (ValuesMap.set_WF _ _ _ h), ?_⟩
      · simp only [valuesOf, hm, hI]; exact h1
      · intro k
        rw [h3, List.filterMap_cons, ← hp, ValuesMap.mem_keys_set]
        simp only [Option.map_some', List.mem_cons]
        tauto

end Mapper

/-- C8 (as stated) fails: a pointer to an unexported field never compares equal to
`structVal.Field(i)`, so `Fields` does not return that field's column name and `Values`
has no entry for it. -/
theorem Fields_unexported_pointer :
    (Map hiddenStruct).Fields [MemberPtr.field 1] ≠ ["f2"] ∧
    (Map hiddenStruct).Fields [MemberPtr.field 1] = [] ∧
    (Map hiddenStruct).Values [MemberPtr.field 1] = some [] := by
  decide

/-- C8 (amended): for a non-empty list of pointers, `Fields` returns, in the order the
pointers were given, the column names of the exported fields they address, one per such
pointer, and `Values` returns a map whose key set is exactly those names; a pointer to an
unexported field, or one that addresses no field of the struct, contributes nothing. -/
theorem Fields_Values_pointers_spec (s : Struct) (ptrs : List MemberPtr) (hne : ptrs ≠ []) :
    (Map s).Fields ptrs = ptrs.filterMap (pointedColumn s) ∧
    ∃ vm : ValuesMap, (Map s).Values ptrs = some vm ∧ vm.WF ∧
      ∀ k, k ∈ vm.keys ↔ k ∈ ptrs.filterMap (pointedColumn s) := by
  have hlen : ¬ ptrs.length = 0 := by
    intro h; exact hne (List.length_eq_zero.mp h)
  constructor
  · simp only [Mapper.Fields, Map, hlen, if_false]
    rw [Mapper.fields_fold]; rfl
  · obtain ⟨vm, h1, h2, h3⟩ := Mapper.valuesOf_keys s ptrs []
    refine ⟨vm, ?_, h2 List.nodup_nil, ?_⟩
    · simp only [Mapper.Values, Map, hlen, if_false]; exact h1
    · intro k; rw [h3]; simp [ValuesMap.keys]

/-- Instance of `Fields_Values_pointers_spec` on concrete input. -/
theorem Fields_Values_pointers_spec_witness :
    [MemberPtr.field 1, MemberPtr.other (Value.int 7), MemberPtr.field 0] ≠ [] ∧
    (Map (TestStruct 1 "qwe")).Fields
        [MemberPtr.field 1, MemberPtr.other (Value.int 7), MemberPtr.field 0]
      = [MemberPtr.field 1, MemberPtr.other (Value.int 7), MemberPtr.field 0].filterMap
          (pointedColumn (TestStruct 1 "qwe")) ∧
    ∃ vm : ValuesMap,
      (Map (TestStruct 1 "qwe")).Values
          [MemberPtr.field 1, MemberPtr.other (Value.int 7), MemberPtr.field 0] = some vm ∧
      vm.WF ∧
      ∀ k, k ∈ vm.keys ↔
        k ∈ [MemberPtr.field 1, MemberPtr.other (Value.int 7), MemberPtr.field 0].filterMap
          (pointedColumn (TestStruct 1 "qwe")) :=
  ⟨by decide,
    Fields_Values_pointers_spec (TestStruct 1 "qwe")
      [MemberPtr.field 1, MemberPtr.other (Value.int 7), MemberPtr.field 0] (by decide)⟩


/-! ## `SetValues` and column names -/

namespace Mapper

theorem findField_none (name : String) (s : List Member) (k : Nat)
    (h : findField name s k = none) : ∀ mem ∈ s, dbFieldName mem.field ≠ name := by
  induction s generalizing k with
  | nil => simp
  | cons mem rest ih =>
    unfold findField at h
    split at h
    · cases h
    · rename_i hne
      intro y hy
      rcases List.mem_cons.mp hy with rfl | hy
      · exact hne
      · exact ih (k + 1) h y hy

theorem findField_some (name : String) (s : List Member) (k i : Nat)
    (h : findField name s k = some i) :
    ∃ pre mem post, s = pre ++ mem :: post ∧ i = k + pre.length ∧
      dbFieldName mem.field = name ∧ ∀ y ∈ pre, dbFieldName y.field ≠ name := by
  induction s generalizing k with
  | nil => simp [findField] at h
  | cons mem rest ih =>
    unfold findField at h
    split at h
    · rename_i heq
      refine ⟨[], mem, rest, rfl, ?_, heq, by simp⟩
      simp only [Option.some.injEq] at h
      simp [h]
    · rename_i hne
      obtain ⟨pre, m1, post, h1, h2, h3, h4⟩ := ih (k + 1) h
      refine ⟨mem :: pre, m1, post, by rw [h1]; rfl, ?_, h3, ?_⟩
      · simp only [List.length_cons]; omega
      · intro y hy
        rcases List.mem_cons.mp hy with rfl | hy
        · exact hne
        · exact h4 y hy

/-- With pairwise distinct column names, one iteration of the `SetValues` loop stores the
value in the one field named by the key and leaves the struct as it is when the key names
no field. -/
theorem setValues_step (s : Struct) (f : String) (x : Value)
    (hnd : (s.map (fun mem => dbFieldName mem.field)).Nodup)
    (hok : ∀ mem ∈ s, dbFieldName mem.field = f →
      mem.field.IsExported = true ∧ assignable x mem.field.Typ = true) :
    (match findField f s 0 with
      | some i => setField s i x
      | none => some s)
      = some (s.map (fun mem =>
          if dbFieldName mem.field = f then { mem with value := x } else mem)) := by
  cases hf : findField f s 0 with
  | none =>
    have hno := findField_none f s 0 hf
    simp only [Option.some.injEq]
    symm
    calc s.map (fun mem => if dbFieldName mem.field = f then { mem with value := x } else mem)
        = s.map id := List.map_congr_left (fun mem hmem => by simp [hno mem hmem])
      _ = s := List.map_id s
  | some i =>
    obtain ⟨pre, mem, post, rfl, hi, hname, hpre⟩ := findField_some f s 0 i hf
    rw [Nat.zero_add] at hi
    subst hi
    have hmem := hok mem (by simp) hname
    rw [List.map_append, List.map_cons] at hnd
    have hnd2 := List.nodup_append.mp hnd
    have hpost : ∀ y ∈ post, dbFieldName y.field ≠ f := by
      intro y hy heq
      have := (List.nodup_cons.mp hnd2.2.1).1
      exact this (List.mem_map.mpr ⟨y, hy, heq.trans hname.symm⟩)
    have e1 : pre.map (fun mem =>
        if dbFieldName mem.field = f then { mem with value := x } else mem) = pre := by
      calc _ = pre.map id := List.map_congr_left (fun y hy => by simp [hpre y hy])
        _ = pre := List.map_id pre
    have e2 : post.map (fun mem =>
        if dbFieldName mem.field = f then { mem with value := x } else mem) = post := by
      calc _ = post.map id := List.map_congr_left (fun y hy => by simp [hpost y hy])
        _ = post := List.map_id post
    simp only [setField, List.getElem?_append_right (Nat.le_refl _), Nat.sub_self,
      List.getElem?_cons_zero, hmem.1, hmem.2, Bool.and_self, if_true, List.map_append,
      List.map_cons, e1, e2, hname, List.set_append_right _ _ (Nat.le_refl _), List.set_cons_zero]

theorem setValuesLoop_spec (v : List (String × Value)) (s : Struct)
    (hv : ValuesMap.WF v)
    (hnd : (s.map (fun mem => dbFieldName mem.field)).Nodup)
    (hok : ∀ mem ∈ s, dbFieldName mem.field ∈ ValuesMap.keys v →
      mem.field.IsExported = true ∧
        assignable (ValuesMap.get v (dbFieldName mem.field)) mem.field.Typ = true) :
    setValuesLoop v s
      = some (s.map (fun mem =>
          if dbFieldName mem.field ∈ ValuesMap.keys v then
            { mem with value := ValuesMap.get v (dbFieldName mem.field) }
          else mem)) := by
  induction v generalizing s with
  | nil => simp [setValuesLoop, ValuesMap.keys]
  | cons e rest ih =>
    obtain ⟨f, x⟩ := e
    have hc : f ∉ ValuesMap.keys rest ∧ ValuesMap.WF rest := by
      simpa [ValuesMap.WF, ValuesMap.keys] using hv
    have hstep := setValues_step s f x hnd (by
      intro mem hmem hname
      have := hok mem hmem (by simp [ValuesMap.keys, hname])
      simpa [ValuesMap.get_cons, hname] using this)
    have hloop : setValuesLoop ((f, x) :: rest) s
        = setValuesLoop rest (s.map (fun mem =>
            if dbFieldName mem.field = f then { mem with value := x } else mem)) := by
      cases hf : findField f s 0 with
      | none =>
        rw [hf] at hstep
        simp only [Option.some.injEq] at hstep
        simp only [setValuesLoop, hf]
        rw [← hstep]
      | some i =>
        rw [hf] at hstep
        have hset : setField s i x = some (s.map (fun mem =>
            if dbFieldName mem.field = f then { mem with value := x } else mem)) := hstep
        simp only [setValuesLoop, hf, hset]
    rw [hloop, ih _ hc.2]
    · simp only [Option.some.injEq, List.map_map]
      apply List.map_congr_left
      intro mem hmem
      simp only [Function.comp]
      by_cases hname : dbFieldName mem.field = f
      · have h1 : dbFieldName mem.field ∉ ValuesMap.keys rest := by rw [hname]; exact hc.1
        have h3 : dbFieldName mem.field ∈ ValuesMap.keys ((f, x) :: rest) := by
          simp [ValuesMap.keys, hname]
        have h4 : ValuesMap.get ((f, x) :: rest) (dbFieldName mem.field) = x := by
          simp [ValuesMap.get_cons, hname]
        rw [if_pos hname, if_neg h1, if_pos h3, h4]
      · have h2 : ¬ f = dbFieldName mem.field := fun h => hname h.symm
        have h3 : dbFieldName mem.field ∈ ValuesMap.keys ((f, x) :: rest)
            ↔ dbFieldName mem.field ∈ ValuesMap.keys rest := by
          simp [ValuesMap.keys, hname]
        have h4 : ValuesMap.get ((f, x) :: rest) (dbFieldName mem.field)
            = ValuesMap.get rest (dbFieldName mem.field) := by
          simp [ValuesMap.get_cons, h2]
        rw [if_neg hname, h4]
        by_cases hk : dbFieldName mem.field ∈ ValuesMap.keys rest
        · rw [if_pos hk, if_pos (h3.mpr hk)]
        · rw [if_neg hk, if_neg (fun h => hk (h3.mp h))]
    · rw [List.map_map]
      have : ((fun mem : Member => dbFieldName mem.field) ∘ fun mem =>
          if dbFieldName mem.field = f then { mem with value := x } else mem)
          = fun mem => dbFieldName mem.field := by
        funext mem
        simp only [Function.comp]
        split <;> rfl
      rw [this]; exact hnd
    · intro mem hmem hk
      obtain ⟨m0, hm0, rfl⟩ := List.mem_map.mp hmem
      have hfield : (if dbFieldName m0.field = f then { m0 with value := x } else m0).field
          = m0.field := by split <;> rfl
      rw [hfield] at hk ⊢
      have hne : ¬ f = dbFieldName m0.field := fun h => hc.1 (h ▸ hk)
      have := hok m0 hm0 (by
        simp only [ValuesMap.keys, List.map_cons, List.mem_cons]; right; exact hk)
      simpa [ValuesMap.get_cons, hne] using this

end Mapper

/-- C9 (as stated) fails: when a key names an unexported field, `SetValues` panics in
`reflect.Value.Set` instead of storing the value. -/
theorem SetValues_unexported_panics :
    (hiddenStruct.map (fun mem => dbFieldName mem.field)).Nodup ∧
    ¬ ∃ s1 : Struct, (Map hiddenStruct).SetValues [("f2", Value.str "x")] = some s1 := by
  refine ⟨by decide, ?_⟩
  rintro ⟨s1, h⟩
  have hn : (Map hiddenStruct).SetValues [("f2", Value.str "x")] = none := by decide
  rw [hn] at h
  cases h

/-- C9 (amended): for a struct with pairwise distinct column names and a map in which
every key that names a field names an exported field and carries a value assignable to
that field's type, `SetValues` returns with every field whose column name is a key holding
the value under that key and every other field unchanged; keys that name no field have no
effect. -/
theorem SetValues_spec (s : Struct) (v : ValuesMap) (hv : v.WF)
    (hnd : (s.map (fun mem => dbFieldName mem.field)).Nodup)
    (hexp : ∀ mem ∈ s, dbFieldName mem.field ∈ v.keys → mem.field.IsExported = true)
    (hty : ∀ mem ∈ s, dbFieldName mem.field ∈ v.keys →
      assignable (v.get (dbFieldName mem.field)) mem.field.Typ = true) :
    (Map s).SetValues v
      = some (s.map (fun mem =>
          if dbFieldName mem.field ∈ v.keys then
            { mem with value := v.get (dbFieldName mem.field) }
          else mem)) :=
  Mapper.setValuesLoop_spec v s hv hnd (fun mem hmem hk => ⟨hexp mem hmem hk, hty mem hmem hk⟩)

/-- Instance of `SetValues_spec` on concrete input. -/
theorem SetValues_spec_witness :
    sampleValues.WF ∧
    ((TestStruct 5 "").map (fun mem => dbFieldName mem.field)).Nodup ∧
    (Map (TestStruct 5 "")).SetValues sampleValues
      = some ((TestStruct 5 "").map (fun mem =>
          if dbFieldName mem.field ∈ sampleValues.keys then
            { mem with value := sampleValues.get (dbFieldName mem.field) }
          else mem)) :=
  ⟨by decide, by decide,
    SetValues_spec (TestStruct 5 "") sampleValues
      (by decide) (by decide) (by decide) (by decide)⟩

/-! ## Lower-casing -/

namespace unicode

theorem To_of_all_gt (bound r : Nat) (hr : r ≤ bound) :
    ∀ l : List (Nat × Nat × Option Nat), l.all (fun e => decide (bound < e.1)) = true →
      To r l = r
  | [], _ => rfl
  | (lo, hi, lower) :: rest, h => by
    simp only [List.all_cons, Bool.and_eq_true, decide_eq_true_eq] at h
    have hlo : ¬ (lo ≤ r ∧ r ≤ hi) := by omega
    simp only [To, hlo, if_false]
    exact To_of_all_gt bound r hr rest h.2

theorem To_head (n : Nat) (tl : List (Nat × Nat × Option Nat))
    (h : n ≤ 127) (htl : tl.all (fun e => decide (127 < e.1)) = true) :
    To n ((65, 90, some 97) :: tl) = if 65 ≤ n ∧ n ≤ 90 then n + 32 else n := by
  by_cases hr : 65 ≤ n ∧ n ≤ 90
  · simp only [To, hr, and_self, if_true]
    omega
  · simp only [To, hr, if_false]
    exact To_of_all_gt 127 n h tl htl

/-- On ASCII the ranges map exactly the runes `'A'..'Z'`, each to the rune 32 above. -/
theorem To_ascii (n : Nat) (h : n ≤ 127) :
    To n CaseRanges = if 65 ≤ n ∧ n ≤ 90 then n + 32 else n :=
  To_head n CaseRanges.tail h (by decide)

end unicode

theorem lowerOf_ascii (c : Char) (h : c.toNat ≤ 127) :
    lowerOf c = if 65 ≤ c.toNat ∧ c.toNat ≤ 90 then Char.ofNat (c.toNat + 32) else c := by
  unfold lowerOf
  rw [unicode.To_ascii c.toNat h]
  split
  · rfl
  · exact Char.ofNat_toNat c

theorem unicode_ToLower_eq (c : Char) : unicode.ToLower c = lowerOf c := by
  unfold unicode.ToLower
  split
  · rename_i h
    rw [lowerOf_ascii c h]
  · rfl

/-- The code's `strings.ToLower` lower-cases: it replaces every rune by its lower-case
counterpart. -/
theorem strings_ToLower_eq (s : String) : strings.ToLower s = lowerCased s := by
  unfold strings.ToLower lowerCased
  split
  · rename_i hascii
    have hc : ∀ c ∈ s.data, c.toNat ≤ 127 := by
      intro c hmem
      have := List.all_eq_true.mp hascii c hmem
      simp only [decide_eq_true_eq] at this
      omega
    split
    · congr 1
      exact List.map_congr_left (fun c hmem => (lowerOf_ascii c (hc c hmem)).symm)
    · rename_i hupper
      have hno : ∀ c ∈ s.data, ¬ (65 ≤ c.toNat ∧ c.toNat ≤ 90) := by
        intro c hmem hup
        apply hupper
        exact List.any_eq_true.mpr ⟨c, hmem, by simpa using hup⟩
      have hid : s.data.map lowerOf = s.data := by
        calc s.data.map lowerOf = s.data.map id :=
              List.map_congr_left (fun c hmem => by
                rw [lowerOf_ascii c (hc c hmem), if_neg (hno c hmem)]; rfl)
          _ = s.data := List.map_id _
      rw [hid]
  · congr 1
    exact List.map_congr_left (fun c _ => unicode_ToLower_eq c)

/-- C10: the column name of a field is the value of its `db` tag when it carries one
(even an empty one) and otherwise its name lower-cased: every rune of the name replaced
by its lower-case counterpart, which for a name of ASCII runes means `'A'..'Z'` replaced
by `'a'..'z'` and every other rune kept. -/
theorem dbFieldName_spec (sf : StructField) :
    (∀ tag : String, sf.Tag.Lookup "db" = some tag → dbFieldName sf = tag) ∧
    (sf.Tag.Lookup "db" = none → dbFieldName sf = lowerCased sf.Name) ∧
    (sf.Tag.Lookup "db" = none → (∀ c ∈ sf.Name.data, c.toNat ≤ 127) →
      (dbFieldName sf).data = sf.Name.data.map (fun c =>
        if 65 ≤ c.toNat ∧ c.toNat ≤ 90 then Char.ofNat (c.toNat + 32) else c)) := by
  refine ⟨?_, ?_, ?_⟩
  · intro tag h; simp [dbFieldName, h]
  · intro h; simp [dbFieldName, h, strings_ToLower_eq]
  · intro h hascii
    simp only [dbFieldName, h, strings_ToLower_eq, lowerCased]
    exact List.map_congr_left (fun c hmem => lowerOf_ascii c (hascii c hmem))

/-- Instance of `dbFieldName_spec`: the tag `f_2`, an empty tag, and the untagged fields
`F1` and `Ärger`. -/
theorem dbFieldName_spec_witness :
    dbFieldName fieldF2 = "f_2" ∧ dbFieldName fieldF3 = "" ∧
    dbFieldName fieldF1 = "f1" ∧ dbFieldName fieldAerger = "ärger" ∧
    (dbFieldName fieldF1).data = ['f', '1'] :=
  ⟨(dbFieldName_spec fieldF2).1 "f_2" (by decide), (dbFieldName_spec fieldF3).1 "" (by decide),
    ((dbFieldName_spec fieldF1).2.1 (by decide)).trans (by decide),
    ((dbFieldName_spec fieldAerger).2.1 (by decide)).trans (by decide),
    ((dbFieldName_spec fieldF1).2.2 (by decide) (by decide)).trans (by decide)⟩

/-! ## Case of column names -/

namespace Mapper

theorem findField_prefix (name : String) (pre post : List Member) (mem : Member) (k : Nat)
    (hpre : ∀ y ∈ pre, dbFieldName y.field ≠ name) (hmem : dbFieldName mem.field = name) :
    findField name (pre ++ mem :: post) k = some (k + pre.length) := by
  induction pre generalizing k with
  | nil => simp [findField, hmem]
  | cons y ys ih =>
    have hy : ¬ dbFieldName y.field = name := hpre y (List.mem_cons_self _ _)
    have hys : ∀ z ∈ ys, dbFieldName z.field ≠ name :=
      fun z hz => hpre z (List.mem_cons_of_mem _ hz)
    have hstep : findField name (y :: (ys ++ mem :: post)) k
        = findField name (ys ++ mem :: post) (k + 1) := by
      simp only [findField, hy, if_false]
    rw [List.cons_append, hstep, ih (k + 1) hys, List.length_cons]
    rw [show k + 1 + ys.length = k + (ys.length + 1) by omega]

end Mapper

/-- C11 (as stated) fails: field `F1` of the test struct has no `db` tag and the column
name `"F1"` equals its name (so also up to letter case), yet `findField` does not find it:
the comparison with the lower-cased field name is exact. -/
theorem findField_case_sensitive :
    ∃ mem ∈ TestStruct 0 "", mem.field.Tag.Lookup "db" = none ∧
      lowerCased "F1" = lowerCased mem.field.Name ∧
      Mapper.findField "F1" (TestStruct 0 "") 0 = none :=
  ⟨_, List.mem_cons_self _ _, by decide, by decide, by decide⟩

/-- C11 (amended): for a field without a `db` tag that no earlier field shadows,
`findField` selects the field for the column name equal to the field's name lower-cased,
and for no other column name: the match is case-sensitive, so a name with an upper-case
rune does not select its own field. -/
theorem findField_untagged_spec (pre post : List Member) (mem : Member)
    (htag : mem.field.Tag.Lookup "db" = none)
    (hpre : ∀ y ∈ pre, dbFieldName y.field ≠ lowerCased mem.field.Name) :
    Mapper.findField (lowerCased mem.field.Name) (pre ++ mem :: post) 0
      = some pre.length ∧
    (∀ name : String, Mapper.findField name (pre ++ mem :: post) 0 = some pre.length →
      name = lowerCased mem.field.Name) ∧
    (mem.field.Name ≠ lowerCased mem.field.Name →
      Mapper.findField mem.field.Name (pre ++ mem :: post) 0 ≠ some pre.length) := by
  have hname : dbFieldName mem.field = lowerCased mem.field.Name := by
    simp [dbFieldName, htag, strings_ToLower_eq]
  have hsel : ∀ name : String,
      Mapper.findField name (pre ++ mem :: post) 0 = some pre.length →
      name = lowerCased mem.field.Name := by
    intro name h
    obtain ⟨pre2, mem2, post2, hs, hi, hn, _⟩ := Mapper.findField_some name _ 0 _ h
    rw [Nat.zero_add] at hi
    have := List.append_inj hs hi
    have hm : mem = mem2 := by
      have h2 := this.2
      simp only [List.cons.injEq] at h2
      exact h2.1
    rw [← hn, ← hm, hname]
  refine ⟨?_, hsel, ?_⟩
  · have := Mapper.findField_prefix _ pre post mem 0 hpre hname
    simpa using this
  · intro hne h
    exact hne (hsel _ h)

/-- Instance of `findField_untagged_spec`: between fields with the columns `f_2` and `f1`,
the untagged field `Ärger` is selected by `"ärger"` only, not by `"Ärger"`. -/
theorem findField_untagged_spec_witness :
    fieldAerger.Tag.Lookup "db" = none ∧
    (∀ y ∈ [Member.mk fieldF2 (Value.str "")], dbFieldName y.field ≠ "ärger") ∧
    Mapper.findField "ärger"
        ([Member.mk fieldF2 (Value.str "")] ++ Member.mk fieldAerger (Value.str "") ::
          [Member.mk fieldF1 (Value.int 0)]) 0 = some 1 ∧
    (∀ name : String,
      Mapper.findField name
          ([Member.mk fieldF2 (Value.str "")] ++ Member.mk fieldAerger (Value.str "") ::
            [Member.mk fieldF1 (Value.int 0)]) 0 = some 1 →
      name = "ärger") ∧
    Mapper.findField "Ärger"
        ([Member.mk fieldF2 (Value.str "")] ++ Member.mk fieldAerger (Value.str "") ::
          [Member.mk fieldF1 (Value.int 0)]) 0 ≠ some 1 := by
  have h := findField_untagged_spec [Member.mk fieldF2 (Value.str "")]
    [Member.mk fieldF1 (Value.int 0)] (Member.mk fieldAerger (Value.str ""))
    (by decide) (by decide)
  have e : lowerCased (Member.mk fieldAerger (Value.str "")).field.Name = "ärger" := by decide
  rw [e] at h
  exact ⟨by decide, by decide, h.1, h.2.1, h.2.2 (by decide)⟩

/-! ## Placeholders and values -/

theorem countRune_append (c : Char) (a b : String) :
    countRune c (a ++ b) = countRune c a + countRune c b := by
  simp [countRune, String.data_append, List.count_append]

theorem countRune_Join (c : Char) (sep : String) (hsep : countRune c sep = 0) :
    ∀ l : List String, countRune c (strings.Join l sep) = (l.map (countRune c)).sum
  | [] => rfl
  | [a] => by simp [strings.Join]
  | a :: b :: rest => by
    have ih := countRune_Join c sep hsep (b :: rest)
    simp only [strings.Join, countRune_append, hsep, ih, List.map_cons, List.sum_cons]
    omega

theorem sum_map_eq_zero {α : Type} (f : α → Nat) (l : List α) (h : ∀ x ∈ l, f x = 0) :
    (l.map f).sum = 0 := by
  induction l with
  | nil => rfl
  | cons x xs ih =>
    simp [h x (List.mem_cons_self _ _), ih (fun y hy => h y (List.mem_cons_of_mem _ hy))]

theorem sum_map_eq_length {α : Type} (f : α → Nat) (l : List α) (h : ∀ x ∈ l, f x = 1) :
    (l.map f).sum = l.length := by
  induction l with
  | nil => rfl
  | cons x xs ih =>
    simp [h x (List.mem_cons_self _ _), ih (fun y hy => h y (List.mem_cons_of_mem _ hy))]
    omega

namespace ValuesMap

theorem values_length (m : ValuesMap) : m.values.length = m.length := by
  rw [values_eq, List.length_map, fields_length]

theorem count_format_field (m : ValuesMap) (hk : ∀ k ∈ m.keys, countRune '?' k = 0) :
    countRune '?' (m.format "%field" ", ") = 0 := by
  rw [format_field, countRune_Join '?' ", " (by decide)]
  exact sum_map_eq_zero _ _ (fun k hk2 => hk k ((mem_fields m k).mp hk2))

theorem count_format_mark (m : ValuesMap) :
    countRune '?' (m.format "?" ", ") = m.length := by
  rw [format_mark, countRune_Join '?' ", " (by decide)]
  rw [sum_map_eq_length _ _ (fun x hx => by rw [(List.mem_replicate.mp hx).2]; decide)]
  simp

theorem count_format_assign (m : ValuesMap) (hk : ∀ k ∈ m.keys, countRune '?' k = 0) :
    countRune '?' (m.format "%field = ?" ", ") = m.length := by
  rw [format_assign, countRune_Join '?' ", " (by decide), List.map_map]
  rw [sum_map_eq_length _ _ (fun k hk2 => by
    have h0 := hk k ((mem_fields m k).mp hk2)
    have h1 : countRune '?' " = ?" = 1 := by decide
    simp only [Function.comp, countRune_append, h0, h1])]
  exact fields_length m

end ValuesMap

/-- C12: when the table name and the keys contain no `?`, the query of `Insert.Format`,
`Replace.Format` and `Update.Format` without `Where` contains as many `?` as values are
returned, which is the number of entries of the map; with a `Where` part whose query has
as many `?` as it has values, the same holds for the whole `Update` statement. -/
theorem placeholders_match_values (t : String) (m : ValuesMap)
    (ht : countRune '?' t = 0) (hk : ∀ k ∈ m.keys, countRune '?' k = 0) :
    (countRune '?' (Insert.Format ⟨t, m⟩).1 = (Insert.Format ⟨t, m⟩).2.length ∧
      (Insert.Format ⟨t, m⟩).2.length = m.length) ∧
    (countRune '?' (Replace.Format ⟨t, m⟩).1 = (Replace.Format ⟨t, m⟩).2.length ∧
      (Replace.Format ⟨t, m⟩).2.length = m.length) ∧
    (countRune '?' (Update.Format ⟨t, m, none⟩).1 = (Update.Format ⟨t, m, none⟩).2.length ∧
      (Update.Format ⟨t, m, none⟩).2.length = m.length) ∧
    ∀ w : QueryPart, countRune '?' w.Query = w.Values.length →
      countRune '?' (Update.Format ⟨t, m, some w⟩).1
        = (Update.Format ⟨t, m, some w⟩).2.length := by
  have c1 : countRune '?' "INSERT INTO " = 0 := by decide
  have c2 : countRune '?' " (" = 0 := by decide
  have c3 : countRune '?' ") VALUES(" = 0 := by decide
  have c4 : countRune '?' ")" = 0 := by decide
  have c5 : countRune '?' "REPLACE INTO " = 0 := by decide
  have c6 : countRune '?' "UPDATE " = 0 := by decide
  have c7 : countRune '?' " SET " = 0 := by decide
  have c8 : countRune '?' " WHERE " = 0 := by decide
  refine ⟨⟨?_, ?_⟩, ⟨?_, ?_⟩, ⟨?_, ?_⟩, ?_⟩
  · simp only [Insert.Format, countRune_append, c1, c2, c3, c4, ht,
      ValuesMap.count_format_field m hk, ValuesMap.count_format_mark, ValuesMap.values_length]
    omega
  · exact ValuesMap.values_length m
  · simp only [Replace.Format, countRune_append, c5, c2, c3, c4, ht,
      ValuesMap.count_format_field m hk, ValuesMap.count_format_mark, ValuesMap.values_length]
    omega
  · exact ValuesMap.values_length m
  · simp only [Update.Format, countRune_append, c6, c7, ht,
      ValuesMap.count_format_assign m hk, ValuesMap.values_length]
    omega
  · exact ValuesMap.values_length m
  · intro w hw
    simp only [Update.Format, countRune_append, c6, c7, c8, ht, hw,
      ValuesMap.count_format_assign m hk, ValuesMap.values_length, List.length_append]
    omega

/-- Instance of `placeholders_match_values` on the table `t1` and the keys `f2`, `f1`. -/
theorem placeholders_match_values_witness :
    countRune '?' "t1" = 0 ∧
    (∀ k ∈ ValuesMap.keys [("f2", Value.nil), ("f1", Value.int 1)], countRune '?' k = 0) ∧
    countRune '?' (Insert.Format ⟨"t1", [("f2", Value.nil), ("f1", Value.int 1)]⟩).1
      = (Insert.Format ⟨"t1", [("f2", Value.nil), ("f1", Value.int 1)]⟩).2.length ∧
    countRune '?'
        (Update.Format ⟨"t1", [("f2", Value.nil), ("f1", Value.int 1)],
          some (Part "f2 > ?" [Value.int 10])⟩).1
      = (Update.Format ⟨"t1", [("f2", Value.nil), ("f1", Value.int 1)],
          some (Part "f2 > ?" [Value.int 10])⟩).2.length :=
  ⟨by decide, by decide,
    (placeholders_match_values "t1" [("f2", Value.nil), ("f1", Value.int 1)]
      (by decide) (by decide)).1.1,
    (placeholders_match_values "t1" [("f2", Value.nil), ("f1", Value.int 1)]
      (by decide) (by decide)).2.2.2 (Part "f2 > ?" [Value.int 10]) (by decide)⟩

/-! ## Independence of the iteration order -/

namespace sort

/-- Sorting forgets the order of its input. -/
theorem Strings_congr {l1 l2 : List String} (h : l1.Perm l2) : Strings l1 = Strings l2 := by
  haveI : IsAntisymm String stringLE :=
    ⟨fun a b hab hba => stringLess_total hba hab⟩
  exact List.eq_of_perm_of_sorted
    (((Strings_perm l1).trans h).trans (Strings_perm l2).symm)
    (Strings_sorted l1) (Strings_sorted l2)

end sort

namespace ValuesMap

theorem get_of_mem (m : ValuesMap) (hm : m.WF) (k : String) (v : Value) (h : (k, v) ∈ m) :
    m.get k = v := by
  induction m with
  | nil => cases h
  | cons e rest ih =>
    have hc : e.1 ∉ keys rest ∧ WF rest := by
      simpa [WF, keys] using hm
    rw [get_cons]
    rcases List.mem_cons.mp h with h | h
    · rw [← h]; simp
    · have hk : k ∈ keys rest := List.mem_map.mpr ⟨(k, v), h, rfl⟩
      have hne : ¬ e.1 = k := fun he => hc.1 (he ▸ hk)
      rw [if_neg hne]
      exact ih hc.2 h

theorem get_of_not_mem (m : ValuesMap) (k : String) (h : k ∉ m.keys) :
    m.get k = Value.nil := by
  induction m with
  | nil => rfl
  | cons e rest ih =>
    have h1 : ¬ e.1 = k := by
      intro he; apply h; simp [keys, he]
    have h2 : k ∉ keys rest := by
      intro hk; apply h; simp only [keys, List.map_cons, List.mem_cons]; right; exact hk
    rw [get_cons, if_neg h1, ih h2]

theorem get_congr {m1 m2 : ValuesMap} (hp : m1.Perm m2) (h1 : m1.WF) (k : String) :
    m1.get k = m2.get k := by
  have hk : (keys m1).Perm (keys m2) := hp.map Prod.fst
  have h2 : m2.WF := hk.nodup_iff.mp h1
  by_cases hmem : k ∈ keys m1
  · obtain ⟨e, he, hek⟩ := List.mem_map.mp hmem
    obtain ⟨k1, v⟩ := e
    simp only at hek
    subst hek
    rw [get_of_mem m1 h1 k1 v he, get_of_mem m2 h2 k1 v (hp.mem_iff.mp he)]
  · rw [get_of_not_mem m1 k hmem, get_of_not_mem m2 k (fun h => hmem (hk.mem_iff.mpr h))]

theorem fields_congr {m1 m2 : ValuesMap} (hp : m1.Perm m2) : m1.fields = m2.fields := by
  rw [fields_eq, fields_eq]
  exact sort.Strings_congr (hp.map Prod.fst)

theorem format_congr {m1 m2 : ValuesMap} (hp : m1.Perm m2) (pattern sep : String) :
    m1.format pattern sep = m2.format pattern sep := by
  rw [format_eq, format_eq, fields_congr hp]

theorem values_congr {m1 m2 : ValuesMap} (hp : m1.Perm m2) (h1 : m1.WF) :
    m1.values = m2.values := by
  rw [values_eq, values_eq, fields_congr hp]
  exact List.map_congr_left (fun k _ => get_congr hp h1 k)

end ValuesMap

/-- C13: two enumerations of the same entries (one a permutation of the other, keys
distinct) give the same query and the same values in `Insert.Format`, `Replace.Format`,
`Update.Format` and `Equal`. -/
theorem Format_order_independent (t : String) (w : Option QueryPart) (m1 m2 : ValuesMap)
    (hp : m1.Perm m2) (h1 : m1.WF) :
    Insert.Format ⟨t, m1⟩ = Insert.Format ⟨t, m2⟩ ∧
    Replace.Format ⟨t, m1⟩ = Replace.Format ⟨t, m2⟩ ∧
    Update.Format ⟨t, m1, w⟩ = Update.Format ⟨t, m2, w⟩ ∧
    Equal m1 = Equal m2 := by
  refine ⟨?_, ?_, ?_, ?_⟩
  · simp only [Insert.Format, ValuesMap.format_congr hp, ValuesMap.values_congr hp h1]
  · simp only [Replace.Format, ValuesMap.format_congr hp, ValuesMap.values_congr hp h1]
  · simp only [Update.Format, ValuesMap.format_congr hp, ValuesMap.values_congr hp h1]
  · simp only [Equal, ValuesMap.format_congr hp, ValuesMap.values_congr hp h1]

/-- Instance of `Format_order_independent` on the two orders of the entries `f1`, `f2`. -/
theorem Format_order_independent_witness :
    List.Perm [("f2", Value.nil), ("f1", Value.int 1)] [("f1", Value.int 1), ("f2", Value.nil)] ∧
    ValuesMap.WF [("f2", Value.nil), ("f1", Value.int 1)] ∧
    Insert.Format ⟨"t1", [("f2", Value.nil), ("f1", Value.int 1)]⟩
      = Insert.Format ⟨"t1", [("f1", Value.int 1), ("f2", Value.nil)]⟩ ∧
    Replace.Format ⟨"t1", [("f2", Value.nil), ("f1", Value.int 1)]⟩
      = Replace.Format ⟨"t1", [("f1", Value.int 1), ("f2", Value.nil)]⟩ ∧
    Update.Format ⟨"t1", [("f2", Value.nil), ("f1", Value.int 1)], none⟩
      = Update.Format ⟨"t1", [("f1", Value.int 1), ("f2", Value.nil)], none⟩ ∧
    Equal [("f2", Value.nil), ("f1", Value.int 1)]
      = Equal [("f1", Value.int 1), ("f2", Value.nil)] :=
  ⟨List.Perm.swap _ _ _, by decide,
    Format_order_independent "t1" none [("f2", Value.nil), ("f1", Value.int 1)]
      [("f1", Value.int 1), ("f2", Value.nil)] (List.Perm.swap _ _ _) (by decide)⟩

/-! ## Round trip between `Values` and `SetValues` -/

namespace Mapper

theorem get_fold_of_nodup (s : List Member)
    (hnd : (s.map (fun mem => dbFieldName mem.field)).Nodup) (mem : Member) (hmem : mem ∈ s) :
    (s.foldl (fun (vm : ValuesMap) mem => vm.set (dbFieldName mem.field) mem.value) []).get
      (dbFieldName mem.field) = mem.value := by
  obtain ⟨pre, post, rfl⟩ := List.append_of_mem hmem
  apply get_fold_last
  intro y hy heq
  rw [List.map_append, List.map_cons] at hnd
  have := (List.nodup_cons.mp (List.nodup_append.mp hnd).2.1).1
  exact this (List.mem_map.mpr ⟨y, hy, heq⟩)

/-- Storing, under every column name, the value the other struct holds there turns a
struct into the other struct of the same type. -/
theorem map_store_eq (vm : ValuesMap) :
    ∀ p q : List Member, p.map (fun mem => mem.field) = q.map (fun mem => mem.field) →
      (∀ mq ∈ q, dbFieldName mq.field ∈ vm.keys ∧ vm.get (dbFieldName mq.field) = mq.value) →
      p.map (fun mem =>
        if dbFieldName mem.field ∈ vm.keys then
          { mem with value := vm.get (dbFieldName mem.field) }
        else mem) = q
  | [], [], _, _ => rfl
  | [], _ :: _, h, _ => by simp at h
  | _ :: _, [], h, _ => by simp at h
  | a :: p, b :: q, h, hq => by
    simp only [List.map_cons, List.cons.injEq] at h
    have hb := hq b (List.mem_cons_self _ _)
    have ih := map_store_eq vm p q h.2 (fun mq hmq => hq mq (List.mem_cons_of_mem _ hmq))
    rw [List.map_cons, ih]
    rw [← h.1] at hb
    rw [if_pos hb.1, hb.2]
    congr 1
    cases b
    simp only at h ⊢
    rw [h.1]

theorem roundtrip (p q : Struct)
    (hty : p.map (fun mem => mem.field) = q.map (fun mem => mem.field))
    (hnd : (q.map (fun mem => dbFieldName mem.field)).Nodup)
    (hexp : ∀ mem ∈ q, mem.field.IsExported = true)
    (hval : ∀ mem ∈ q, assignable mem.value mem.field.Typ = true) :
    setValuesLoop (q.foldl (fun (vm : ValuesMap) mem => vm.set (dbFieldName mem.field) mem.value) []) p
      = some q := by
  have hkeys : ∀ mq ∈ q,
      dbFieldName mq.field
          ∈ (q.foldl (fun (vm : ValuesMap) mem => vm.set (dbFieldName mem.field) mem.value) []).keys ∧
        (q.foldl (fun (vm : ValuesMap) mem => vm.set (dbFieldName mem.field) mem.value) []).get
          (dbFieldName mq.field) = mq.value := by
    intro mq hmq
    refine ⟨?_, get_fold_of_nodup q hnd mq hmq⟩
    rw [mem_keys_fold]
    exact Or.inr ⟨mq, hmq, rfl⟩
  have hnames : p.map (fun mem => dbFieldName mem.field)
      = q.map (fun mem => dbFieldName mem.field) := by
    have := congrArg (List.map dbFieldName) hty
    simpa [List.map_map, Function.comp] using this
  rw [setValuesLoop_spec _ p (fold_WF q [] List.nodup_nil) (hnames ▸ hnd)]
  · rw [map_store_eq _ p q hty hkeys]
  · intro mem hmem _
    have hf : mem.field ∈ q.map (fun mem => mem.field) := by
      rw [← hty]; exact List.mem_map.mpr ⟨mem, hmem, rfl⟩
    obtain ⟨mq, hmq, hfield⟩ := List.mem_map.mp hf
    rw [← hfield, (hkeys mq hmq).2]
    exact ⟨hexp mq hmq, hval mq hmq⟩

end Mapper

/-- C14 (as stated) fails in two ways: on a struct with an unexported field `Values()`
panics, and on a struct whose interface-typed field holds nil `SetValues` panics on the
nil entry that `Values()` returned; in both cases the round trip does not complete. -/
theorem roundtrip_panics :
    (hiddenStruct.map (fun mem => dbFieldName mem.field)).Nodup ∧
    (¬ ∃ vm : ValuesMap, (Map hiddenStruct).Values [] = some vm) ∧
    (nilStruct.map (fun mem => dbFieldName mem.field)).Nodup ∧
    (Map nilStruct).Values [] = some [("x", Value.nil)] ∧
    (¬ ∃ s1 : Struct, (Map nilStruct).SetValues [("x", Value.nil)] = some s1) := by
  refine ⟨by decide, ?_, by decide, by decide, ?_⟩
  · rintro ⟨vm, h⟩
    have hn : (Map hiddenStruct).Values [] = none := by decide
    rw [hn] at h
    cases h
  · rintro ⟨s1, h⟩
    have hn : (Map nilStruct).SetValues [("x", Value.nil)] = none := by decide
    rw [hn] at h
    cases h

/-- C14 (amended): for two structs `p` and `q` of the same struct type with pairwise
distinct column names, all fields exported and every field of `q` holding a non-nil value
of its type, `Values()` of `q` returns a map and `SetValues` of `p` with that map makes `p`
equal to `q` field by field (so `Values()` of `p` afterwards is that of `q`); in
particular `SetValues` of `q` with its own `Values()` leaves `q` unchanged. -/
theorem Values_SetValues_roundtrip (p q : Struct)
    (hty : p.map (fun mem => mem.field) = q.map (fun mem => mem.field))
    (hnd : (q.map (fun mem => dbFieldName mem.field)).Nodup)
    (hexp : ∀ mem ∈ q, mem.field.IsExported = true)
    (hval : ∀ mem ∈ q, assignable mem.value mem.field.Typ = true) :
    ∃ vm : ValuesMap, (Map q).Values [] = some vm ∧
      (Map p).SetValues vm = some q ∧ (Map q).SetValues vm = some q := by
  refine ⟨q.foldl (fun (vm : ValuesMap) mem => vm.set (dbFieldName mem.field) mem.value) [],
    ?_, ?_, ?_⟩
  · exact Mapper.valuesAll_exported q 0 [] hexp
  · exact Mapper.roundtrip p q hty hnd hexp hval
  · exact Mapper.roundtrip q q rfl hnd hexp hval

/-- Instance of `Values_SetValues_roundtrip` on two values of the test struct. -/
theorem Values_SetValues_roundtrip_witness :
    (TestStruct 0 "").map (fun mem => mem.field)
      = (TestStruct 1 "qwe").map (fun mem => mem.field) ∧
    ((TestStruct 1 "qwe").map (fun mem => dbFieldName mem.field)).Nodup ∧
    (∀ mem ∈ TestStruct 1 "qwe", mem.field.IsExported = true) ∧
    (∀ mem ∈ TestStruct 1 "qwe", assignable mem.value mem.field.Typ = true) ∧
    ∃ vm : ValuesMap, (Map (TestStruct 1 "qwe")).Values [] = some vm ∧
      (Map (TestStruct 0 "")).SetValues vm = some (TestStruct 1 "qwe") ∧
      (Map (TestStruct 1 "qwe")).SetValues vm = some (TestStruct 1 "qwe") :=
  ⟨by decide, by decide, by decide, by decide,
    Values_SetValues_roundtrip (TestStruct 0 "") (TestStruct 1 "qwe")
      (by decide) (by decide) (by decide) (by decide)⟩

/-! ## `ScanRow` -/

namespace Mapper

theorem findField_isSome (name : String) (s : List Member) (k : Nat) :
    (findField name s k).isSome = s.any (fun mem => dbFieldName mem.field == name) := by
  induction s generalizing k with
  | nil => rfl
  | cons mem rest ih =>
    by_cases h : dbFieldName mem.field = name
    · simp [findField, h]
    · simp [findField, h, ih (k + 1)]

theorem findField_getElem (name : String) (s : List Member) (i : Nat)
    (h : findField name s 0 = some i) :
    ∃ mem, s[i]? = some mem ∧ dbFieldName mem.field = name := by
  obtain ⟨pre, mem, post, rfl, hi, hn, _⟩ := findField_some name s 0 i h
  rw [Nat.zero_add] at hi
  subst hi
  exact ⟨mem, by
    rw [List.getElem?_append_right (Nat.le_refl _), Nat.sub_self, List.getElem?_cons_zero], hn⟩

/-- One pointer is allocated for a column exactly when `findField` resolves it. -/
theorem scanPtrs_cons (s : Struct) (col : String) (rest : List String) :
    (scanPtrs s (col :: rest)).length
      = (if (findField col s 0).isSome then 1 else 0) + (scanPtrs s rest).length := by
  cases h : findField col s 0 with
  | none => simp [scanPtrs, scanFields, h]
  | some i =>
    obtain ⟨mem, hmem, _⟩ := findField_getElem col s i h
    simp [scanPtrs, scanFields, h, hmem]
    omega

theorem scanPtrs_length (s : Struct) (columns : List String) :
    (scanPtrs s columns).length
      = columns.countP (fun col => s.any (fun mem => dbFieldName mem.field == col)) := by
  induction columns with
  | nil => rfl
  | cons col rest ih =>
    rw [scanPtrs_cons, ih, List.countP_cons, findField_isSome]
    omega

end Mapper

/-- C15: the number of destination pointers `ScanRow` hands to `rows.Scan` is the number
of columns, counted with repetition, whose name is the column name of some field (a `Scan`
that reports how many destinations it received reports that number); it is the number of
columns exactly when every column matches a field and smaller when some column matches
none. -/
theorem ScanRow_pointer_count (s : Struct) (columns : List String) :
    (Mapper.scanPtrs s columns).length
      = columns.countP (fun col => s.any (fun mem => dbFieldName mem.field == col)) ∧
    (∀ report : Nat → String,
      ScanRow { Columns := Except.ok columns,
                Scan := fun ptrs => Except.error (report ptrs.length) } s
        = some (some (report (columns.countP
            (fun col => s.any (fun mem => dbFieldName mem.field == col)))), s)) ∧
    ((Mapper.scanPtrs s columns).length = columns.length ↔
      ∀ col ∈ columns, ∃ mem ∈ s, dbFieldName mem.field = col) ∧
    ((∃ col ∈ columns, ∀ mem ∈ s, dbFieldName mem.field ≠ col) →
      (Mapper.scanPtrs s columns).length < columns.length) := by
  have hlen := Mapper.scanPtrs_length s columns
  have hiff : (Mapper.scanPtrs s columns).length = columns.length ↔
      ∀ col ∈ columns, ∃ mem ∈ s, dbFieldName mem.field = col := by
    rw [hlen, List.countP_eq_length]
    simp
  refine ⟨hlen, ?_, hiff, ?_⟩
  · intro report
    simp only [ScanRow, Mapper.ScanRow, hlen]
  rintro ⟨col, hcol, hno⟩
  have hle : (Mapper.scanPtrs s columns).length ≤ columns.length := by
    rw [hlen]; exact List.countP_le_length _
  have hne : (Mapper.scanPtrs s columns).length ≠ columns.length := by
    intro heq
    obtain ⟨mem, hmem, hname⟩ := hiff.mp heq col hcol
    exact hno mem hmem hname
  omega

/-- Instance of `ScanRow_pointer_count`: of the columns `f_2`, `zz`, `f1`, `f1` three name a
field of the test struct. -/
theorem ScanRow_pointer_count_witness :
    (∃ col ∈ ["f_2", "zz", "f1", "f1"], ∀ mem ∈ TestStruct 0 "", dbFieldName mem.field ≠ col) ∧
    (Mapper.scanPtrs (TestStruct 0 "") ["f_2", "zz", "f1", "f1"]).length = 3 ∧
    (Mapper.scanPtrs (TestStruct 0 "") ["f_2", "zz", "f1", "f1"]).length
      < ["f_2", "zz", "f1", "f1"].length :=
  ⟨⟨"zz", by decide, by decide⟩,
    (ScanRow_pointer_count (TestStruct 0 "") ["f_2", "zz", "f1", "f1"]).1.trans (by decide),
    (ScanRow_pointer_count (TestStruct 0 "") ["f_2", "zz", "f1", "f1"]).2.2.2
      ⟨"zz", by decide, by decide⟩⟩

/-- C16: when `ScanRow` returns an error, from `rows.Columns` or from `rows.Scan`, the
struct is as it was: both error paths return before any field is assigned, and they never
panic. -/
theorem ScanRow_error_atomic (rows : Rows) (s : Struct) :
    (∀ e, rows.Columns = Except.error e → ScanRow rows s = some (some e, s)) ∧
    (∀ columns e, rows.Columns = Except.ok columns →
      rows.Scan (Mapper.scanPtrs s columns) = Except.error e →
      ScanRow rows s = some (some e, s)) ∧
    (∀ e s1, ScanRow rows s = some (some e, s1) → s1 = s) := by
  refine ⟨?_, ?_, ?_⟩
  · intro e h
    simp [ScanRow, Mapper.ScanRow, h]
  · intro columns e h1 h2
    simp [ScanRow, Mapper.ScanRow, h1, h2]
  · intro e s1 h
    unfold ScanRow Mapper.ScanRow at h
    cases hc : rows.Columns with
    | error err =>
      rw [hc] at h
      simp only [Option.some.injEq, Prod.mk.injEq] at h
      exact h.2.symm
    | ok columns =>
      rw [hc] at h
      simp only at h
      cases hs : rows.Scan (Mapper.scanPtrs s columns) with
      | error err =>
        rw [hs] at h
        simp only [Option.some.injEq, Prod.mk.injEq] at h
        exact h.2.symm
      | ok vals =>
        rw [hs] at h
        simp only at h
        cases ha : Mapper.assignScanned vals (Mapper.scanFields s columns) 0 s with
        | none => rw [ha] at h; cases h
        | some s2 =>
          rw [ha] at h
          simp at h

/-- Instance of `ScanRow_error_atomic` on rows whose `Columns` fails and rows whose `Scan`
fails. -/
theorem ScanRow_error_atomic_witness :
    closedRows.Columns = Except.error "sql: Rows are closed" ∧
    ScanRow closedRows (TestStruct 5 "a") = some (some "sql: Rows are closed", TestStruct 5 "a") ∧
    failingRows.Columns = Except.ok ["f_2", "f1"] ∧
    failingRows.Scan (Mapper.scanPtrs (TestStruct 5 "a") ["f_2", "f1"])
      = Except.error "sql: no rows" ∧
    ScanRow failingRows (TestStruct 5 "a") = some (some "sql: no rows", TestStruct 5 "a") :=
  ⟨rfl, (ScanRow_error_atomic closedRows (TestStruct 5 "a")).1 _ rfl, rfl, rfl,
    (ScanRow_error_atomic failingRows (TestStruct 5 "a")).2.1 _ _ rfl rfl⟩

/-! ## Fields sharing a column name -/

namespace Mapper

theorem setField_prefix (pre post : List Member) (mem : Member) (x : Value)
    (hexp : mem.field.IsExported = true) (hty : assignable x mem.field.Typ = true) :
    setField (pre ++ mem :: post) pre.length x
      = some (pre ++ { mem with value := x } :: post) := by
  simp only [setField, List.getElem?_append_right (Nat.le_refl _), Nat.sub_self,
    List.getElem?_cons_zero, hexp, hty, Bool.and_self, if_true,
    List.set_append_right _ _ (Nat.le_refl _), List.set_cons_zero]

end Mapper

/-- C17 (as stated) fails: in a struct where the two fields sharing the column name `n`
include an unexported one, `Values()` panics instead of returning the later field's value,
and `SetValues` panics when the value is not assignable to the first field. -/
theorem shared_name_panics :
    (clashHidden.map (fun mem => dbFieldName mem.field)) = ["n", "n"] ∧
    (¬ ∃ vm : ValuesMap, (Map clashHidden).Values [] = some vm) ∧
    ((clashStruct 1 2 3).map (fun mem => dbFieldName mem.field)) = ["n", "b", "n"] ∧
    (¬ ∃ s1 : Struct, (Map (clashStruct 1 2 3)).SetValues [("n", Value.str "x")] = some s1) := by
  refine ⟨by decide, ?_, by decide, ?_⟩
  · rintro ⟨vm, h⟩
    have hn : (Map clashHidden).Values [] = none := by decide
    rw [hn] at h
    cases h
  · rintro ⟨s1, h⟩
    have hn : (Map (clashStruct 1 2 3)).SetValues [("n", Value.str "x")] = none := by decide
    rw [hn] at h
    cases h

/-- C17 (amended): in a struct whose fields are all exported and in which `a` is the first
and `b` the last field with the column name `n`, `Values()` holds under `n` the value of
`b`, `findField` resolves `n` to `a`, and `SetValues` with the single entry `n: x`, for `x`
assignable to the type of `a`, stores `x` in `a` and leaves every other field, `b`
included, unchanged. -/
theorem shared_name_spec (pre mid post : List Member) (a b : Member) (n : String) (x : Value)
    (ha : dbFieldName a.field = n) (hb : dbFieldName b.field = n)
    (hpre : ∀ y ∈ pre, dbFieldName y.field ≠ n) (hpost : ∀ y ∈ post, dbFieldName y.field ≠ n)
    (hexp : ∀ mem ∈ pre ++ a :: (mid ++ b :: post), mem.field.IsExported = true)
    (hty : assignable x a.field.Typ = true) :
    (∃ vm : ValuesMap, (Map (pre ++ a :: (mid ++ b :: post))).Values [] = some vm ∧
      vm.get n = b.value) ∧
    Mapper.findField n (pre ++ a :: (mid ++ b :: post)) 0 = some pre.length ∧
    (Map (pre ++ a :: (mid ++ b :: post))).SetValues [(n, x)]
      = some (pre ++ { a with value := x } :: (mid ++ b :: post)) := by
  have hfind := Mapper.findField_prefix n pre (mid ++ b :: post) a 0 hpre ha
  rw [Nat.zero_add] at hfind
  have haexp : a.field.IsExported = true := hexp a (by simp)
  refine ⟨?_, hfind, ?_⟩
  · refine ⟨(pre ++ a :: (mid ++ b :: post)).foldl
      (fun (vm : ValuesMap) mem => vm.set (dbFieldName mem.field) mem.value) [], ?_, ?_⟩
    · exact Mapper.valuesAll_exported _ 0 [] hexp
    · have hsplit : pre ++ a :: (mid ++ b :: post) = (pre ++ a :: mid) ++ b :: post := by
        simp
      rw [hsplit, ← hb]
      exact Mapper.get_fold_last (pre ++ a :: mid) post b [] (by rw [hb]; exact hpost)
  · show Mapper.setValuesLoop [(n, x)] (pre ++ a :: (mid ++ b :: post)) = _
    simp only [Mapper.setValuesLoop, hfind,
      Mapper.setField_prefix pre (mid ++ b :: post) a x haexp hty]

/-- Instance of `shared_name_spec` on `struct { A int; B int; C int }` with `A` and `C`
under the column name `n`. -/
theorem shared_name_spec_witness :
    (∀ mem ∈ clashStruct 1 2 3, mem.field.IsExported = true) ∧
    (∃ vm : ValuesMap, (Map (clashStruct 1 2 3)).Values [] = some vm ∧
      vm.get "n" = Value.int 3) ∧
    Mapper.findField "n" (clashStruct 1 2 3) 0 = some 0 ∧
    (Map (clashStruct 1 2 3)).SetValues [("n", Value.int 9)] = some (clashStruct 9 2 3) :=
  ⟨by decide,
    shared_name_spec [] [(clashStruct 1 2 3).get ⟨1, by decide⟩] []
      ((clashStruct 1 2 3).get ⟨0, by decide⟩) ((clashStruct 1 2 3).get ⟨2, by decide⟩)
      "n" (Value.int 9) (by decide) (by decide) (by decide) (by decide) (by decide)
      (by decide)⟩

end sqler
